import Mathlib

set_option autoImplicit false

/-!
# wechat-sticker-exporter: a shallow embedding and its properties

The development follows `sticker/sticker.go` and `main.go`.

Modelling conventions
* a Go `string` is a list of characters (`Str`); a `[]byte` is a list of naturals (`Bytes`);
* a `time.Time` is the integer offset of its instant from the zero `time.Time`, so the zero
  value is `0`, `IsZero` is `t = 0` and `Compare` is the comparison of integers;
* Go `regexp` patterns are regular expressions of `Mathlib.Computability.RegularExpressions`,
  run by the derivative matcher `rmatch`; `^` and `$` anchor at the two ends of the text;
* `filepath.Clean`, `filepath.Join`, `filepath.Dir` and `filepath.Base` are the Unix ones,
  `Clean` working element by element on the path split at the separators;
* everything the operating system or the network decides (stat, HTTP responses, failing
  system calls, the deferred `os.Remove` included, the random suffix of a temporary file)
  is an explicit argument.
-/

namespace WechatSticker

open RegularExpression

/-! ## Strings and regular expressions -/

/-- Go `string`. -/
abbrev Str := List Char

/-- Go `[]byte`. -/
abbrev Bytes := List Nat

/-- Go `time.Time`, as the offset of the instant from the zero value. -/
abbrev Time := Int

/-- The zero `time.Time` (`var mtime time.Time`). -/
def Time.zero : Time := 0

/-- Method `IsZero` of `time.Time`. -/
def Time.IsZero (t : Time) : Bool := decide (t = Time.zero)

/-- Method `Compare` of `time.Time`: -1, 0 or +1. -/
def Time.Compare (t u : Time) : Int :=
  if t < u then -1 else if u < t then 1 else 0

/-- The characters of a class range such as `0-9`. -/
def charRange (lo hi : Char) : List Char :=
  (List.range (hi.toNat + 1 - lo.toNat)).map (fun k => Char.ofNat (lo.toNat + k))

/-- A character class `[...]`: the alternation of its members. -/
def charClass (cs : List Char) : RegularExpression Char :=
  cs.foldr (fun c r => char c + r) 0

/-- A literal string: the concatenation of its characters. -/
def literal (s : Str) : RegularExpression Char :=
  s.foldr (fun c r => char c * r) 1

/-- Repetition `r+`. -/
def oneOrMore (r : RegularExpression Char) : RegularExpression Char := r * star r

/-- Option `r?`. -/
def optional (r : RegularExpression Char) : RegularExpression Char := r + 1

/-- The class `[0-9a-f]`. -/
def hexClass : RegularExpression Char := charClass (charRange '0' '9' ++ charRange 'a' 'f')

/-- The class `[0-9a-z]`. -/
def alnumClass : RegularExpression Char := charClass (charRange '0' '9' ++ charRange 'a' 'z')

/-- Body of `idpattern`, the pattern `^[0-9a-f]+$`. -/
def idpattern : RegularExpression Char := oneOrMore hexClass

/-- Body of `urlpattern`, the pattern `^https?://`. -/
def urlpattern : RegularExpression Char :=
  literal "http".toList * (optional (char 's') * literal "://".toList)

/-- `idpattern.MatchString`: with `^` and `$` the whole text has to match. -/
def idpatternMatchString (s : Str) : Bool := idpattern.rmatch s

/-- `urlpattern.MatchString`: with `^` alone some prefix of the text has to match. -/
def urlpatternMatchString (s : Str) : Bool := s.inits.any (fun p => urlpattern.rmatch p)

/-! ## Paths -/

/-- `strings.Split path "/"`: the texts between the separators. -/
def splitSep : Str → List Str
  | [] => [[]]
  | c :: rest =>
    if c = '/' then [] :: splitSep rest
    else (c :: (splitSep rest).headD []) :: (splitSep rest).tail

/-- `strings.Join elems "/"`. -/
def joinSep : List Str → Str
  | [] => []
  | [e] => e
  | e :: e' :: es => e ++ '/' :: joinSep (e' :: es)

/-- What the loop of `filepath.Clean` does with one element of the path; `out` holds the
elements written so far, the last one first. An empty element and `.` are dropped; `..`
takes back the last element written, unless there is none or it is itself a `..`, in which
case it is dropped on a rooted path and written on another; anything else is written. -/
def cleanStep (rooted : Bool) (out : List Str) (elem : Str) : List Str :=
  if elem = [] then out
  else if elem = ['.'] then out
  else if elem = ['.', '.'] then
    match out with
    | [] => if rooted then [] else [elem]
    | top :: below =>
      if rooted then below
      else if top = ['.', '.'] then elem :: out else below
  else elem :: out

/-- The elements `filepath.Clean` writes for `path`, the last one first. -/
def cleanOut (rooted : Bool) (path : Str) : List Str :=
  (splitSep path).foldl (cleanStep rooted) []

/-- The text `filepath.Clean` returns for the elements written: after the root separator
on a rooted path, and `.` when a path that is not rooted has none. -/
def renderClean (rooted : Bool) (out : List Str) : Str :=
  if rooted then '/' :: joinSep out.reverse
  else if out = [] then ['.'] else joinSep out.reverse

/-- `filepath.Clean` (Unix): the shortest path equivalent to `path` by purely lexical
processing. -/
def filepathClean (path : Str) : Str :=
  if path = [] then ['.']
  else
    renderClean (decide (path.head? = some '/'))
      (cleanOut (decide (path.head? = some '/')) path)

/-- `filepath.Join dir name` (Unix): leading empty elements are ignored, the rest is joined
by the separator and cleaned. -/
def filepathJoin (dir name : Str) : Str :=
  if dir ≠ [] then filepathClean (dir ++ '/' :: name)
  else if name ≠ [] then filepathClean name
  else []

/-- The path without its trailing separators. -/
def stripTrailingSeparators (path : Str) : Str :=
  (path.reverse.dropWhile (fun c => decide (c = '/'))).reverse

/-- `filepath.Base`: the last element of the path, `.` for the empty path and the separator
for a path of separators only. -/
def filepathBase (path : Str) : Str :=
  if path = [] then ['.']
  else
    let elem := ((stripTrailingSeparators path).reverse.takeWhile
      (fun c => decide (c ≠ '/'))).reverse
    if elem = [] then ['/'] else elem

/-- `filepath.Dir`: the path up to and including its last separator, cleaned. -/
def filepathDir (path : Str) : Str :=
  filepathClean (path.reverse.dropWhile (fun c => decide (c ≠ '/'))).reverse

/-- Function `joinPath` of package `os`, used by `os.CreateTemp`. -/
def joinPath (dir name : Str) : Str :=
  if dir.getLast? = some '/' then dir ++ name else dir ++ '/' :: name

/-- A path element that `filepath.Clean` writes as it is: not empty, not `.`, not `..`,
without a separator. -/
def Plain (e : Str) : Prop := e ≠ [] ∧ e ≠ ['.'] ∧ e ≠ ['.', '.'] ∧ '/' ∉ e

/-- The shape of what `filepath.Clean` writes: plain elements on top of `..` elements, of
which a rooted path has none. -/
def CleanStack (rooted : Bool) (out : List Str) : Prop :=
  ∃ (normals : List Str) (k : Nat), out = normals ++ List.replicate k ['.', '.'] ∧
    (rooted = true → k = 0) ∧ ∀ e ∈ normals, Plain e

/-! ## Stickers and the correlator -/

/-- The `Sticker` struct. -/
structure Sticker where
  ID : Str
  URL : Str
  EncryptedPath : Str
  DownloadedPath : Str
  Mtime : Time
deriving DecidableEq, Repr

/-- One iteration of the loop `for i, node := range nodes` of
`ExtractStickerMetadataFromFavArchive`; `stat` is `os.Stat` followed by `ModTime`, `none`
when the stat fails. -/
def correlatorStep (stat : Str → Option Time) (stickersDir : Str) (nodes : List Str)
    (stickers : List Sticker) (i : Nat) : List Sticker :=
  let text := nodes.getD i []
  if !urlpatternMatchString text then stickers
  else
    let url := text
    if i = 0 then stickers
    else
      let id := nodes.getD (i - 1) []
      if !idpatternMatchString id then stickers
      else
        let encryptedPath := filepathJoin stickersDir id
        let mtime : Time :=
          match stat encryptedPath with
          | none => Time.zero
          | some t => t
        stickers ++ [{ ID := id, URL := url, EncryptedPath := encryptedPath,
                       DownloadedPath := [], Mtime := mtime }]

/-- The whole loop over `nodes`, starting from the nil slice. -/
def correlate (stat : Str → Option Time) (stickersDir : Str) (nodes : List Str) :
    List Sticker :=
  (List.range nodes.length).foldl (correlatorStep stat stickersDir nodes) []

/-! ### The correlator as the specification words it -/

/-- A text that begins with `http://` or `https://`. -/
def beginsWithHttp (s : Str) : Bool :=
  "http://".toList.isPrefixOf s || "https://".toList.isPrefixOf s

/-- A non-empty text of the characters `0`-`9` and `a`-`f` only. -/
def isLowerHex (s : Str) : Bool :=
  !s.isEmpty && s.all (fun c => "0123456789abcdef".toList.contains c)

/-- The pair the specification asks for at index `i`, if any. -/
def pairAt (nodes : List Str) (i : Nat) : Option (Str × Str) :=
  if 1 ≤ i ∧ beginsWithHttp (nodes.getD i []) = true ∧ isLowerHex (nodes.getD (i - 1) []) = true
  then some (nodes.getD (i - 1) [], nodes.getD i [])
  else none

/-! ## The fetcher -/

/-- What one `_client.Get(url)` and the read of its body come to, as decided by the network:
no response at all, or a response with a status code and the outcome of `io.ReadAll`
(`none` when reading the body fails). -/
inductive Response where
  | transportError
  | status (code : Int) (body : Option Bytes)
deriving DecidableEq, Repr

/-- The three `fmt.Errorf` errors of `httpGet`. -/
inductive GetError where
  | getFailed
  | httpStatus (code : Int)
  | readFailed
deriving DecidableEq, Repr

/-- An error of `httpGet` together with whether it went through `retry.Unrecoverable`. -/
structure HttpError where
  err : GetError
  unrecoverable : Bool
deriving DecidableEq, Repr

/-- Function `httpGet`, on the outcome of the request. -/
def httpGet (resp : Response) : Except HttpError Bytes :=
  match resp with
  | Response.transportError => Except.error { err := GetError.getFailed, unrecoverable := false }
  | Response.status code body =>
    if code ≠ 200 then
      if code ≥ 400 ∧ code < 500 then
        Except.error { err := GetError.httpStatus code, unrecoverable := true }
      else
        Except.error { err := GetError.httpStatus code, unrecoverable := false }
    else
      match body with
      | none => Except.error { err := GetError.readFailed, unrecoverable := false }
      | some content => Except.ok content

/-- What `httpGetWithRetries` comes to: how many times `httpGet` was called, and either the
content or the errors logged by `retry.Do`. -/
structure FetchResult where
  calls : Nat
  result : Except (List HttpError) Bytes
deriving Repr

/-- Modelled from the spec: `retry.Do` of the library `github.com/avast/retry-go` is not
under `src/`. Section 4.4 asks for a fixed maximum attempt count, a fixed delay and a retry
only after a retryable failure; the library's loop `for n < attempts` returns at the first
nil error, breaks at the first error that is not `IsRecoverable` (one wrapped by
`retry.Unrecoverable`), breaks after the last attempt, and otherwise waits and increments
`n`. Here `remaining` is `attempts - n`, `fn n` is the `n`-th call of the retried function
and `log` is the error log so far. -/
def retryDo (fn : Nat → Except HttpError Bytes) :
    (remaining n : Nat) → (log : List HttpError) → FetchResult
  | 0, n, log => { calls := n, result := Except.error log }
  | k + 1, n, log =>
    match fn n with
    | Except.ok content => { calls := n + 1, result := Except.ok content }
    | Except.error e =>
      if e.unrecoverable then { calls := n + 1, result := Except.error (log ++ [e]) }
      else if k = 0 then { calls := n + 1, result := Except.error (log ++ [e]) }
      else retryDo fn k (n + 1) (log ++ [e])

/-- Function `httpGetWithRetries`; `responses n` is the outcome of the `n`-th request. -/
def httpGetWithRetries (responses : Nat → Response) (retries : Nat) : FetchResult :=
  retryDo (fun n => httpGet (responses n)) retries 0 []

/-- The attempts after which the specification stops: a success, or a status in [400,500). -/
def isFinalOutcome (resp : Response) : Bool :=
  match resp with
  | Response.transportError => false
  | Response.status code body =>
    (decide (code = 200) && body.isSome) || (decide (400 ≤ code) && decide (code < 500))

/-- The attempts that succeed: status 200 with a body that could be read. -/
def isSuccess (resp : Response) : Bool :=
  match resp with
  | Response.transportError => false
  | Response.status code body => decide (code = 200) && body.isSome

/-! ## The file system and the durable writer -/

/-- A regular file: content, permission bits and modification time. -/
structure File where
  content : Bytes
  perm : Nat
  mtime : Time
deriving DecidableEq, Repr

/-- The regular files of the file system, by path. -/
abbrev FS := List (Str × File)

/-- The file at `path`, if there is one. -/
def readFile (fs : FS) (path : Str) : Option File :=
  match fs with
  | [] => none
  | e :: rest => if e.1 = path then some e.2 else readFile rest path

/-- The file system without the file at `path`. -/
def unlinkFile (fs : FS) (path : Str) : FS :=
  match fs with
  | [] => []
  | e :: rest => if e.1 = path then unlinkFile rest path else e :: unlinkFile rest path

/-- `os.Remove path`; `fails` says whether the call fails, and a call that fails leaves the
file system as it was. The only caller discards the error, so none is reported. -/
def osRemove (fs : FS) (path : Str) (fails : Bool) : FS :=
  if fails then fs else unlinkFile fs path

/-- Create or replace the file at `path`. -/
def putFile (fs : FS) (path : Str) (f : File) : FS := (path, f) :: unlinkFile fs path

/-- A successful `os.Rename oldpath newpath`: atomic, replaces the target. -/
def osRename (fs : FS) (oldpath newpath : Str) : FS :=
  match readFile fs oldpath with
  | none => fs
  | some f => putFile (unlinkFile fs oldpath) newpath f

/-- A successful `os.Chtimes path t t`: the zero time leaves the time of the file as it
is. -/
def osChtimes (fs : FS) (path : Str) (t : Time) : FS :=
  match readFile fs path with
  | none => fs
  | some f => if Time.IsZero t then fs else putFile fs path { f with mtime := t }

/-- Function `uitoa` of package `os`: the decimal digits of a number. -/
def uitoa (n : Nat) : Str := Nat.toDigits 10 n

/-- What the operating system decides during one `atomicWriteFile`: the random number
`os.CreateTemp` draws, which of the calls fail (the deferred `os.Remove` among them), how
many bytes a failing `Write` still wrote, and the time stamped on written files. -/
structure WriteEnv where
  rand : Nat
  createTempFails : Bool
  writeFailsAfter : Option Nat
  chmodFails : Bool
  closeFails : Bool
  renameFails : Bool
  removeFails : Bool
  now : Time
deriving Repr

/-- The step at which `atomicWriteFile` failed. -/
inductive WriteError where
  | createTemp
  | write
  | chmod
  | close
  | rename
deriving DecidableEq, Repr

/-- The path `os.CreateTemp (filepath.Dir name) (filepath.Base name + ".*")` opens. -/
def tempPath (name : Str) (rand : Nat) : Str :=
  joinPath (filepathDir name) (filepathBase name ++ '.' :: uitoa rand)

/-- `os.CreateTemp dir pattern` for a pattern that ends in its last `*`; `stem` is the
pattern without that `*`. It refuses a pattern with a separator, opens the file with
`O_EXCL` and mode 0600, and gives the new path and the new file system; `env.rand` is the
number of the draw that settles the call, and a name that is taken makes it fail. -/
def osCreateTemp (fs : FS) (dir stem : Str) (env : WriteEnv) : Option (Str × FS) :=
  if env.createTempFails then none
  else if '/' ∈ stem then none
  else
    let path := joinPath dir (stem ++ uitoa env.rand)
    if (readFile fs path).isSome then none
    else some (path, putFile fs path { content := [], perm := 0o600, mtime := env.now })

/-- Replace the content of the open temporary file. -/
def writeContent (fs : FS) (path : Str) (data : Bytes) (now : Time) : FS :=
  match readFile fs path with
  | none => fs
  | some f => putFile fs path { f with content := data, mtime := now }

/-- A successful `Chmod` on the open temporary file. -/
def chmodFile (fs : FS) (path : Str) (perm : Nat) : FS :=
  match readFile fs path with
  | none => fs
  | some f => putFile fs path { f with perm := perm }

/-- The error of `atomicWriteFile`, if any, and the file system it leaves. -/
structure WriteResult where
  err : Option WriteError
  fs : FS
deriving Repr

/-- Function `atomicWriteFile`. The deferred `os.Remove tmppath` runs on every return
after the temporary file was created. -/
def atomicWriteFile (fs : FS) (name : Str) (data : Bytes) (perm : Nat) (env : WriteEnv) :
    WriteResult :=
  match osCreateTemp fs (filepathDir name) (filepathBase name ++ ['.']) env with
  | none => { err := some WriteError.createTemp, fs := fs }
  | some (tmppath, fs1) =>
    match env.writeFailsAfter with
    | some k =>
      { err := some WriteError.write,
        fs := osRemove (writeContent fs1 tmppath (data.take k) env.now) tmppath
          env.removeFails }
    | none =>
      let fs2 := writeContent fs1 tmppath data env.now
      if env.chmodFails then
        { err := some WriteError.chmod, fs := osRemove fs2 tmppath env.removeFails }
      else
        let fs3 := chmodFile fs2 tmppath perm
        if env.closeFails then
          { err := some WriteError.close, fs := osRemove fs3 tmppath env.removeFails }
        else if env.renameFails then
          { err := some WriteError.rename, fs := osRemove fs3 tmppath env.removeFails }
        else
          { err := none,
            fs := osRemove (osRename fs3 tmppath name) tmppath env.removeFails }

/-! ## Downloading one sticker -/

/-- What the outside world decides during one `DownloadTo`: the outcome of each request,
the sniffing function `http.DetectContentType`, the behaviour of the file system during the
write, and whether `os.Chtimes` fails. -/
structure DownloadEnv where
  responses : Nat → Response
  detect : Bytes → Str
  write : WriteEnv
  chtimesFails : Bool

/-- The four errors of `DownloadTo`. -/
inductive DownloadError where
  | emptyID
  | emptyURL
  | download (errs : List HttpError)
  | write (e : WriteError)
deriving DecidableEq, Repr

/-- The extension chosen by the `switch mime` of `DownloadTo`. -/
def extensionOf (mime : Str) : Str :=
  if mime = "image/gif".toList then ".gif".toList
  else if mime = "image/jpeg".toList then ".jpg".toList
  else if mime = "image/png".toList then ".png".toList
  else ".png".toList

/-- What a call of `DownloadTo` comes to: its error, the receiver after the call, the file
system after the call, the number of calls of `httpGet` and whether `atomicWriteFile` was
called. -/
structure DownloadResult where
  err : Option DownloadError
  sticker : Sticker
  fs : FS
  fetches : Nat
  wrote : Bool

/-- Method `DownloadTo` of `Sticker`. -/
def DownloadTo (s : Sticker) (dir : Str) (fs : FS) (env : DownloadEnv) : DownloadResult :=
  if s.ID = [] then
    { err := some DownloadError.emptyID, sticker := s, fs := fs, fetches := 0, wrote := false }
  else if s.URL = [] then
    { err := some DownloadError.emptyURL, sticker := s, fs := fs, fetches := 0, wrote := false }
  else
    let fetched := httpGetWithRetries env.responses 3
    match fetched.result with
    | Except.error errs =>
      { err := some (DownloadError.download errs), sticker := s, fs := fs,
        fetches := fetched.calls, wrote := false }
    | Except.ok content =>
      let mime := env.detect content
      let ext := extensionOf mime
      let dest := filepathJoin dir (s.ID ++ ext)
      let written := atomicWriteFile fs dest content 0o644 env.write
      match written.err with
      | some e =>
        { err := some (DownloadError.write e), sticker := s, fs := written.fs,
          fetches := fetched.calls, wrote := true }
      | none =>
        let fs1 := if env.chtimesFails then written.fs else osChtimes written.fs dest s.Mtime
        { err := none, sticker := { s with DownloadedPath := dest }, fs := fs1,
          fetches := fetched.calls, wrote := true }

/-! ## Extraction over all archives -/

/-- What `plutil` and the XML parser make of one `fav.archive`: a failure of either, or the
texts of the nodes `/plist/dict/array/string` in document order. -/
inductive Decoded where
  | plutilFailed
  | parseFailed
  | nodes (texts : List Str)
deriving DecidableEq, Repr

/-- The two errors of `ExtractStickerMetadataFromFavArchive`. -/
inductive ArchiveError where
  | plistToXml
  | xmlParse
deriving DecidableEq, Repr

/-- Function `ExtractStickerMetadataFromFavArchive`. -/
def ExtractStickerMetadataFromFavArchive (stat : Str → Option Time) (favArchivePath : Str)
    (decoded : Decoded) : Except ArchiveError (List Sticker) :=
  match decoded with
  | Decoded.plutilFailed => Except.error ArchiveError.plistToXml
  | Decoded.parseFailed => Except.error ArchiveError.xmlParse
  | Decoded.nodes texts =>
    Except.ok (correlate stat
      (filepathJoin (filepathDir favArchivePath) "Persistence".toList) texts)

/-- The errors `ExtractStickerMetadata` returns. -/
inductive ExtractError where
  | homeDir
  | noMatch
  | failed (failures total : Nat)
deriving DecidableEq, Repr

/-- The loop over `favArchives` of `ExtractStickerMetadata`: the stickers appended so far
and the count of failures. -/
def extractLoop (extract : Str → Except ArchiveError (List Sticker)) :
    List Str → List Sticker × Nat → List Sticker × Nat
  | [], acc => acc
  | favArchive :: rest, (stickers, failures) =>
    match extract favArchive with
    | Except.error _ => extractLoop extract rest (stickers, failures + 1)
    | Except.ok stickersInArchive =>
      extractLoop extract rest (stickers ++ stickersInArchive, failures)

/-- Function `ExtractStickerMetadata`, on what `os.UserHomeDir` answered (`homeDirFails`),
the matches of the glob and the extraction of each archive. The error of `os.UserHomeDir`
is stored in `err` and the function goes on. -/
def ExtractStickerMetadataWith (homeDirFails : Bool) (favArchives : List Str)
    (extract : Str → Except ArchiveError (List Sticker)) :
    List Sticker × Option ExtractError :=
  let err : Option ExtractError := if homeDirFails then some ExtractError.homeDir else none
  if favArchives.length = 0 then ([], some ExtractError.noMatch)
  else
    let r := extractLoop extract favArchives ([], 0)
    if r.2 > 0 then (r.1, some (ExtractError.failed r.2 favArchives.length))
    else (r.1, err)

/-- Function `ExtractStickerMetadata` with each archive extracted by
`ExtractStickerMetadataFromFavArchive`. -/
def ExtractStickerMetadata (homeDirFails : Bool) (favArchives : List Str)
    (stat : Str → Option Time) (decode : Str → Decoded) :
    List Sticker × Option ExtractError :=
  ExtractStickerMetadataWith homeDirFails favArchives
    (fun favArchive => ExtractStickerMetadataFromFavArchive stat favArchive (decode favArchive))

/-- The stickers of the archives that were extracted, in archive order. -/
def stickersOfSucceeded (extract : Str → Except ArchiveError (List Sticker))
    (favArchives : List Str) : List Sticker :=
  (favArchives.map (fun a =>
    match extract a with
    | Except.error _ => []
    | Except.ok l => l)).flatten

/-- Whether some archive failed. -/
def someArchiveFailed (extract : Str → Except ArchiveError (List Sticker))
    (favArchives : List Str) : Bool :=
  favArchives.any (fun a =>
    match extract a with
    | Except.error _ => true
    | Except.ok _ => false)

/-! ## The main program -/

/-- The capture group of `filenamePattern`, the pattern `^([0-9a-f]+)\.[0-9a-z]+$`. -/
def filenamePatternGroup : RegularExpression Char := oneOrMore hexClass

/-- What follows the capture group in `filenamePattern`. -/
def filenamePatternTail : RegularExpression Char := char '.' * oneOrMore alnumClass

/-- `filenamePattern.FindStringSubmatch filename`, reduced to `m[1]`: `none` when there is
no match. The greedy group is tried longest first. -/
def filenamePatternFindStringSubmatch (filename : Str) : Option Str :=
  (List.range (filename.length + 1)).reverse.findSome? (fun k =>
    if filenamePatternGroup.rmatch (filename.take k) &&
        filenamePatternTail.rmatch (filename.drop k)
    then some (filename.take k) else none)

/-- The loop that fills `existingIDs` from the names of the directory entries. -/
def existingIDsOf (dirents : List Str) : List Str :=
  dirents.filterMap filenamePatternFindStringSubmatch

/-- The name under which `path` is listed in directory `dir`, if it lies directly in it:
its last element, when joining `dir` and that element gives `path`. -/
def childName (dir path : Str) : Option Str :=
  let name := filepathBase path
  if name ≠ ['.'] ∧ name ≠ ['.', '.'] ∧ '/' ∉ name ∧ filepathJoin dir name = path then
    some name
  else none

/-- The names a successful `os.ReadDir dir` lists. -/
def readDirNames (fs : FS) (dir : Str) : List Str :=
  fs.filterMap (fun e => childName dir e.1)

/-- The comparison handed to `slices.SortFunc`. -/
def compareMtime (s1 s2 : Sticker) : Int := Time.Compare s1.Mtime s2.Mtime

/-- Modelled from the spec: `slices.SortFunc` of `golang.org/x/exp/slices` is not under
`src/`. Section 4.6 has the stickers sorted by `mtime` ascending; the library promises a
rearrangement of the slice in ascending order as determined by the comparison and leaves
the order of equal elements open. This is that contract for the comparison of `main`. -/
def SortsAscending (sortFunc : (Sticker → Sticker → Int) → List Sticker → List Sticker) :
    Prop :=
  ∀ l, (sortFunc compareMtime l).Perm l ∧
    (sortFunc compareMtime l).Pairwise (fun a b => compareMtime a b ≤ 0)

/-- One sort that meets the contract: insertion sort, which the library itself uses for
short slices. -/
def insertionSortFunc (cmp : Sticker → Sticker → Int) (l : List Sticker) : List Sticker :=
  l.insertionSort (fun a b => cmp a b ≤ 0)

/-- The variables of the download loop of `main`, and as a ghost the receiver and the
result of every call of `DownloadTo` so far. -/
structure LoopState where
  fs : FS
  newDownloads : List Sticker
  failures : Nat
  calls : List (Sticker × DownloadResult)

/-- The body of the loop of `main` for a sticker that is not skipped: the call of
`DownloadTo` on the copy `s` and the update of `failures` or `newDownloads`; `envs n` is
the outside world during the `n`-th call of `DownloadTo`. -/
def afterDownload (datadir : Str) (envs : Nat → DownloadEnv) (s : Sticker)
    (st : LoopState) : LoopState :=
  let r := DownloadTo s datadir st.fs (envs st.calls.length)
  match r.err with
  | some _ =>
    { fs := r.fs, newDownloads := st.newDownloads, failures := st.failures + 1,
      calls := st.calls ++ [(s, r)] }
  | none =>
    { fs := r.fs, newDownloads := st.newDownloads ++ [r.sticker],
      failures := st.failures, calls := st.calls ++ [(s, r)] }

/-- The loop `for _, s := range stickers` of `main`. -/
def downloadLoop (datadir : Str) (existingIDs : List Str) (envs : Nat → DownloadEnv) :
    List Sticker → LoopState → LoopState
  | [], st => st
  | s :: rest, st =>
    if s.ID ∈ existingIDs then downloadLoop datadir existingIDs envs rest st
    else downloadLoop datadir existingIDs envs rest (afterDownload datadir envs s st)

/-- The bookkeeping of the loop: `newDownloads` holds the receivers after the calls that
returned nil, in call order, and `failures` counts the other calls. -/
def Accounted (st : LoopState) : Prop :=
  st.newDownloads = (st.calls.filter (fun c => c.2.err.isNone)).map (fun c => c.2.sticker) ∧
  st.failures = (st.calls.filter (fun c => c.2.err.isSome)).length

/-- Every recorded call is a call of `DownloadTo` on the recorded receiver. -/
def CallsGenuine (datadir : Str) (st : LoopState) : Prop :=
  ∀ c ∈ st.calls, ∃ fs env, c.2 = DownloadTo c.1 datadir fs env

/-- Every new download has an id that passes `idpattern`, and its file is in the
destination directory. -/
def Persisted (datadir : Str) (st : LoopState) : Prop :=
  ∀ s ∈ st.newDownloads, isLowerHex s.ID = true ∧
    ∃ ext ∈ [".gif".toList, ".jpg".toList, ".png".toList],
      (readFile st.fs (filepathJoin datadir (s.ID ++ ext))).isSome = true

/-- What `main` prints on standard output. -/
inductive Printed where
  | noNewStickers
  | downloaded (count : Nat) (paths : List Str)
deriving DecidableEq, Repr

/-- What a run of `main` comes to. -/
structure MainResult where
  exitCode : Nat
  printed : Printed
  calls : List (Sticker × DownloadResult)
  newDownloads : List Sticker
  fs : FS

/-- Function `main` from `var errored bool` on: `existingIDs` is the set built from the
directory entries and `extracted` is what `sticker.ExtractStickerMetadata` returned. -/
def mainFrom (sortFunc : (Sticker → Sticker → Int) → List Sticker → List Sticker)
    (datadir : Str) (existingIDs : List Str) (fs : FS)
    (extracted : List Sticker × Option ExtractError) (envs : Nat → DownloadEnv) :
    MainResult :=
  let errored : Bool := extracted.2.isSome
  let stickers := sortFunc compareMtime extracted.1
  let st := downloadLoop datadir existingIDs envs stickers
    { fs := fs, newDownloads := [], failures := 0, calls := [] }
  let printed :=
    if st.newDownloads.length > 0 then
      Printed.downloaded st.newDownloads.length (st.newDownloads.map (fun s => s.DownloadedPath))
    else Printed.noNewStickers
  let errored : Bool := if st.failures > 0 then true else errored
  { exitCode := if errored then 1 else 0, printed := printed, calls := st.calls,
    newDownloads := st.newDownloads, fs := st.fs }

/-- Function `main`, when `os.ReadDir` succeeds. -/
def main (sortFunc : (Sticker → Sticker → Int) → List Sticker → List Sticker)
    (datadir : Str) (fs : FS) (extracted : List Sticker × Option ExtractError)
    (envs : Nat → DownloadEnv) : MainResult :=
  mainFrom sortFunc datadir (existingIDsOf (readDirNames fs datadir)) fs extracted envs

/-- The receivers of the calls of `DownloadTo`, in the order of the calls. -/
def attempted (r : MainResult) : List Sticker := r.calls.map (fun c => c.1)

/-! ## Concrete inputs -/

/-- A sticker as the correlator emits it, with its `Mtime` unset. -/
def stickerAB : Sticker :=
  { ID := "ab".toList, URL := "http://x/1".toList,
    EncryptedPath := "h/Stickers/Persistence/ab".toList, DownloadedPath := [], Mtime := 0 }

/-- An archive that decodes to the id and the URL of `stickerAB`, next to which no
encrypted sticker is found by `os.Stat`. -/
def decodeAB (_favArchivePath : Str) : Decoded :=
  Decoded.nodes ["ab".toList, "http://x/1".toList]

/-- A world in which a download succeeds: status 200 with a body, which is sniffed as a
PNG image, and no failing system call. -/
def envOK : DownloadEnv :=
  { responses := fun _ => Response.status 200 (some [137, 80, 78, 71]),
    detect := fun _ => "image/png".toList,
    write := { rand := 42, createTempFails := false, writeFailsAfter := none,
               chmodFails := false, closeFails := false, renameFails := false,
               removeFails := false, now := 1000 },
    chtimesFails := false }

/-- An operating system on which `Chmod` fails and then the deferred `os.Remove` fails as
well, as on a volume that has turned read-only. -/
def writeEnvChmodRemoveFail : WriteEnv :=
  { rand := 42, createTempFails := false, writeFailsAfter := none, chmodFails := true,
    closeFails := false, renameFails := false, removeFails := true, now := 1000 }

/-- A world in which the download fails: status 404. -/
def envNotFound : DownloadEnv :=
  { responses := fun _ => Response.status 404 none,
    detect := fun _ => "image/png".toList,
    write := { rand := 42, createTempFails := false, writeFailsAfter := none,
               chmodFails := false, closeFails := false, renameFails := false,
               removeFails := false, now := 1000 },
    chtimesFails := false }

/-- Three stickers whose modification times are `T1 = 2`, `T2 = 1` and `T3 = 3`. -/
def stickerT1 : Sticker :=
  { ID := "a1".toList, URL := "http://x/1".toList, EncryptedPath := "p/a1".toList,
    DownloadedPath := [], Mtime := 2 }

/-- The sticker with time `T2`. -/
def stickerT2 : Sticker :=
  { ID := "a2".toList, URL := "http://x/2".toList, EncryptedPath := "p/a2".toList,
    DownloadedPath := [], Mtime := 1 }

/-- The sticker with time `T3`. -/
def stickerT3 : Sticker :=
  { ID := "a3".toList, URL := "http://x/3".toList, EncryptedPath := "p/a3".toList,
    DownloadedPath := [], Mtime := 3 }

/-- Worlds for three calls of `DownloadTo` of which the second fails. -/
def envsSecondFails (n : Nat) : DownloadEnv := if n = 1 then envNotFound else envOK

/-! # Properties -/

/-! ## Regular expression lemmas -/

theorem hexChars_eq : charRange '0' '9' ++ charRange 'a' 'f' = "0123456789abcdef".toList := by
  decide

theorem alnumChars_eq :
    charRange '0' '9' ++ charRange 'a' 'z' = "0123456789abcdefghijklmnopqrstuvwxyz".toList := by
  decide

theorem charClass_rmatch_iff (cs : List Char) (x : Str) :
    (charClass cs).rmatch x = true ↔ ∃ c ∈ cs, x = [c] := by
  induction cs with
  | nil =>
    show (0 : RegularExpression Char).rmatch x = true ↔ _
    simp
  | cons a cs ih =>
    have h : charClass (a :: cs) = char a + charClass cs := rfl
    rw [h, add_rmatch_iff, char_rmatch_iff, ih]
    simp

theorem star_charClass_rmatch_iff (cs : List Char) (x : Str) :
    (star (charClass cs)).rmatch x = true ↔ ∀ c ∈ x, c ∈ cs := by
  rw [star_rmatch_iff]
  constructor
  · rintro ⟨S, rfl, hS⟩ c hc
    obtain ⟨t, ht, hct⟩ := List.mem_flatten.1 hc
    obtain ⟨d, hd, rfl⟩ := (charClass_rmatch_iff cs t).1 (hS t ht).2
    simp only [List.mem_singleton] at hct
    exact hct ▸ hd
  · intro h
    refine ⟨x.map (fun c => [c]), ?_, ?_⟩
    · clear h
      induction x with
      | nil => rfl
      | cons a x ih => simpa [List.flatten] using ih
    · intro t ht
      obtain ⟨c, hc, rfl⟩ := List.mem_map.1 ht
      exact ⟨by simp, (charClass_rmatch_iff cs [c]).2 ⟨c, h c hc, rfl⟩⟩

theorem oneOrMore_charClass_rmatch_iff (cs : List Char) (x : Str) :
    (oneOrMore (charClass cs)).rmatch x = true ↔ x ≠ [] ∧ ∀ c ∈ x, c ∈ cs := by
  unfold oneOrMore
  rw [mul_rmatch_iff]
  constructor
  · rintro ⟨t, u, rfl, ht, hu⟩
    obtain ⟨c, hc, rfl⟩ := (charClass_rmatch_iff cs t).1 ht
    rw [star_charClass_rmatch_iff] at hu
    refine ⟨by simp, ?_⟩
    intro d hd
    rcases List.mem_append.1 hd with h | h
    · simp only [List.mem_singleton] at h
      exact h ▸ hc
    · exact hu d h
  · rintro ⟨hne, h⟩
    cases x with
    | nil => exact absurd rfl hne
    | cons a x =>
      refine ⟨[a], x, rfl, (charClass_rmatch_iff cs [a]).2 ⟨a, h a (by simp), rfl⟩, ?_⟩
      rw [star_charClass_rmatch_iff]
      intro c hc
      exact h c (List.mem_cons_of_mem _ hc)

theorem literal_rmatch_iff (l x : Str) : (literal l).rmatch x = true ↔ x = l := by
  induction l generalizing x with
  | nil => simpa [literal, ← one_def] using one_rmatch_iff x
  | cons a l ih =>
    have h : literal (a :: l) = char a * literal l := rfl
    rw [h, mul_rmatch_iff]
    constructor
    · rintro ⟨t, u, rfl, ht, hu⟩
      rw [char_rmatch_iff] at ht
      rw [ih] at hu
      subst ht; subst hu; rfl
    · rintro rfl
      exact ⟨[a], l, rfl, (char_rmatch_iff a [a]).2 rfl, (ih l).2 rfl⟩

theorem idpatternMatchString_iff (s : Str) :
    idpatternMatchString s = true ↔ isLowerHex s = true := by
  unfold idpatternMatchString idpattern hexClass isLowerHex
  rw [oneOrMore_charClass_rmatch_iff, hexChars_eq]
  cases s <;> simp [List.all_eq_true]

theorem urlpattern_rmatch_iff (p : Str) :
    urlpattern.rmatch p = true ↔ p = "http://".toList ∨ p = "https://".toList := by
  unfold urlpattern optional
  rw [mul_rmatch_iff]
  constructor
  · rintro ⟨t, u, rfl, ht, hu⟩
    rw [literal_rmatch_iff] at ht
    rw [mul_rmatch_iff] at hu
    obtain ⟨v, w, rfl, hv, hw⟩ := hu
    rw [literal_rmatch_iff] at hw
    rw [add_rmatch_iff, char_rmatch_iff, one_rmatch_iff] at hv
    subst ht; subst hw
    rcases hv with rfl | rfl
    · right; rfl
    · left; rfl
  · rintro (rfl | rfl)
    · refine ⟨"http".toList, "://".toList, rfl, (literal_rmatch_iff _ _).2 rfl, ?_⟩
      rw [mul_rmatch_iff]
      refine ⟨[], "://".toList, rfl, ?_, (literal_rmatch_iff _ _).2 rfl⟩
      rw [add_rmatch_iff, one_rmatch_iff]
      right; rfl
    · refine ⟨"http".toList, "s://".toList, rfl, (literal_rmatch_iff _ _).2 rfl, ?_⟩
      rw [mul_rmatch_iff]
      refine ⟨['s'], "://".toList, rfl, ?_, (literal_rmatch_iff _ _).2 rfl⟩
      rw [add_rmatch_iff, char_rmatch_iff]
      left; rfl

theorem urlpatternMatchString_iff (s : Str) :
    urlpatternMatchString s = true ↔ beginsWithHttp s = true := by
  unfold urlpatternMatchString beginsWithHttp
  rw [List.any_eq_true, Bool.or_eq_true, List.isPrefixOf_iff_prefix, List.isPrefixOf_iff_prefix]
  constructor
  · rintro ⟨p, hp, hm⟩
    rw [List.mem_inits] at hp
    rcases (urlpattern_rmatch_iff p).1 hm with rfl | rfl
    · exact Or.inl hp
    · exact Or.inr hp
  · rintro (h | h)
    · exact ⟨_, (List.mem_inits _ _).2 h, (urlpattern_rmatch_iff _).2 (Or.inl rfl)⟩
    · exact ⟨_, (List.mem_inits _ _).2 h, (urlpattern_rmatch_iff _).2 (Or.inr rfl)⟩

/-! ## The correlator -/

theorem correlatorStep_pairs (stat : Str → Option Time) (dir : Str) (nodes : List Str)
    (acc : List Sticker) (i : Nat) :
    (correlatorStep stat dir nodes acc i).map (fun s => (s.ID, s.URL)) =
      acc.map (fun s => (s.ID, s.URL)) ++ (pairAt nodes i).toList := by
  unfold correlatorStep pairAt
  generalize nodes.getD (i - 1) [] = id
  generalize nodes.getD i [] = text
  have hu := urlpatternMatchString_iff text
  have hid := idpatternMatchString_iff id
  cases h1 : urlpatternMatchString text <;> cases h2 : idpatternMatchString id <;>
    cases h3 : beginsWithHttp text <;> cases h4 : isLowerHex id <;>
    simp [h1, h2, h3, h4] at hu hid ⊢
  by_cases h0 : i = 0
  · simp [h0]
  · have h5 : 1 ≤ i := Nat.one_le_iff_ne_zero.2 h0
    simp [h0, h5]

theorem correlate_foldl_pairs (stat : Str → Option Time) (dir : Str) (nodes : List Str)
    (n : Nat) :
    ((List.range n).foldl (correlatorStep stat dir nodes) []).map (fun s => (s.ID, s.URL)) =
      (List.range n).filterMap (pairAt nodes) := by
  induction n with
  | zero => rfl
  | succ n ih =>
    rw [List.range_succ, List.foldl_append, List.filterMap_append]
    simp only [List.foldl_cons, List.foldl_nil]
    rw [correlatorStep_pairs, ih]
    cases h : pairAt nodes n <;> simp [h]

theorem correlate_pairs (stat : Str → Option Time) (dir : Str) (nodes : List Str) :
    (correlate stat dir nodes).map (fun s => (s.ID, s.URL)) =
      (List.range nodes.length).filterMap (pairAt nodes) :=
  correlate_foldl_pairs stat dir nodes nodes.length

/-- Every sticker of the correlator has an identifier and a URL that pass the two patterns. -/
theorem correlate_valid (stat : Str → Option Time) (dir : Str) (nodes : List Str)
    (s : Sticker) (hs : s ∈ correlate stat dir nodes) :
    isLowerHex s.ID = true ∧ beginsWithHttp s.URL = true := by
  have hmem : (s.ID, s.URL) ∈ (correlate stat dir nodes).map (fun s => (s.ID, s.URL)) :=
    List.mem_map.2 ⟨s, hs, rfl⟩
  rw [correlate_pairs, List.mem_filterMap] at hmem
  obtain ⟨i, -, hi⟩ := hmem
  unfold pairAt at hi
  split at hi
  · rename_i h
    simp only [Option.some.injEq, Prod.mk.injEq] at hi
    rw [← hi.1, ← hi.2]
    exact ⟨h.2.2, h.2.1⟩
  · cases hi

/-- C1. The correlator loop emits, in index order, exactly one Sticker for each index
`i >= 1` whose node begins with `http://` or `https://` and whose preceding node is a
non-empty text over `0-9a-f`, with `ID` the preceding node and `URL` the node, and nothing
for any other index, whatever `stat` answers. The five-node example yields the two expected
stickers, a preceding `Deadbeef` yields none, and `ftp://x` is never the URL of a sticker. -/
theorem C1_correlator_adjacency :
    (∀ (stat : Str → Option Time) (dir : Str) (nodes : List Str),
      (correlate stat dir nodes).map (fun s => (s.ID, s.URL)) =
        (List.range nodes.length).filterMap (pairAt nodes)) ∧
    (∀ (stat : Str → Option Time) (dir : Str),
      (correlate stat dir
          ["deadbeef".toList, "http://x/1".toList, "http://x/2".toList, "cafefeed".toList,
            "http://y/3".toList]).map (fun s => (s.ID, s.URL)) =
        [("deadbeef".toList, "http://x/1".toList), ("cafefeed".toList, "http://y/3".toList)]) ∧
    (∀ (stat : Str → Option Time) (dir url : Str),
      correlate stat dir ["Deadbeef".toList, url] = []) ∧
    (urlpatternMatchString "ftp://x".toList = false ∧
      ∀ (stat : Str → Option Time) (dir : Str) (nodes : List Str),
        ∀ s ∈ correlate stat dir nodes, s.URL ≠ "ftp://x".toList) := by
  refine ⟨correlate_pairs, ?_, ?_, ?_, ?_⟩
  · intro stat dir
    rw [correlate_pairs]
    decide
  · intro stat dir url
    have h := correlate_pairs stat dir ["Deadbeef".toList, url]
    have h2 : (List.range ["Deadbeef".toList, url].length).filterMap
        (pairAt ["Deadbeef".toList, url]) = [] := by
      have hd : isLowerHex "Deadbeef".toList = false := by decide
      have h0 : pairAt ["Deadbeef".toList, url] 0 = none := by simp [pairAt]
      have h1 : pairAt ["Deadbeef".toList, url] 1 = none := by
        unfold pairAt
        rw [if_neg]
        intro h
        have h' := h.2.2
        rw [show List.getD ["Deadbeef".toList, url] (1 - 1) [] = "Deadbeef".toList from rfl,
          hd] at h'
        cases h'
      show List.filterMap _ [0, 1] = []
      rw [List.filterMap_cons_none h0, List.filterMap_cons_none h1]
      rfl
    rw [h2] at h
    exact List.map_eq_nil_iff.1 h
  · rw [Bool.eq_false_iff]
    intro h
    have := (urlpatternMatchString_iff _).1 h
    revert this
    decide
  · intro stat dir nodes s hs hurl
    have h := (correlate_valid stat dir nodes s hs).2
    rw [hurl] at h
    revert h
    decide

/-! ## The fetcher -/

theorem retryDo_spec (fn : Nat → Except HttpError Bytes) (k n : Nat) (log : List HttpError) :
    n + 1 ≤ (retryDo fn (k + 1) n log).calls ∧
    (retryDo fn (k + 1) n log).calls ≤ n + k + 1 ∧
    (∀ j, n ≤ j → j + 1 < (retryDo fn (k + 1) n log).calls →
      ∃ e, fn j = Except.error e ∧ e.unrecoverable = false) ∧
    ((retryDo fn (k + 1) n log).calls < n + k + 1 →
      (∃ c, fn ((retryDo fn (k + 1) n log).calls - 1) = Except.ok c) ∨
      ∃ e, fn ((retryDo fn (k + 1) n log).calls - 1) = Except.error e ∧
        e.unrecoverable = true) ∧
    (∀ c, (retryDo fn (k + 1) n log).result = Except.ok c ↔
      fn ((retryDo fn (k + 1) n log).calls - 1) = Except.ok c) := by
  induction k generalizing n log with
  | zero =>
    unfold retryDo
    cases h : fn n with
    | ok c =>
      refine ⟨by simp, by simp, ?_, ?_, ?_⟩
      · intro j hj hlt; simp at hlt; omega
      · intro _; left; exact ⟨c, by simpa using h⟩
      · intro c'; simp [h]
    | error e =>
      cases hu : e.unrecoverable <;> simp [hu, h] <;> intro j hj hlt <;> omega
  | succ k ih =>
    unfold retryDo
    cases h : fn n with
    | ok c =>
      refine ⟨by simp, by simp, ?_, ?_, ?_⟩
      · intro j hj hlt; simp at hlt; omega
      · intro _; left; exact ⟨c, by simpa using h⟩
      · intro c'; simp [h]
    | error e =>
      cases hu : e.unrecoverable
      · obtain ⟨h1, h2, h3, h4, h5⟩ := ih (n + 1) (log ++ [e])
        simp only [hu, Bool.false_eq_true, if_false, Nat.add_one_ne_zero]
        refine ⟨by omega, by omega, ?_, ?_, h5⟩
        · intro j hj hlt
          rcases Nat.eq_or_lt_of_le hj with rfl | hj'
          · exact ⟨e, h, hu⟩
          · exact h3 j hj' hlt
        · intro hlt
          exact h4 (by omega)
      · simp only [hu, if_true]
        refine ⟨by simp, by simp, ?_, ?_, ?_⟩
        · intro j hj hlt; simp at hlt; omega
        · intro _; right; exact ⟨e, by simpa using h, hu⟩
        · intro c'; simp [h]

theorem httpGet_ok_iff (resp : Response) :
    (∃ c, httpGet resp = Except.ok c) ↔ isSuccess resp = true := by
  cases resp with
  | transportError => simp [httpGet, isSuccess]
  | status code body =>
    by_cases hc : code = 200
    · subst hc
      cases body <;> simp [httpGet, isSuccess]
    · cases body <;> simp [httpGet, isSuccess, hc] <;> split_ifs <;> simp

theorem httpGet_final_iff (resp : Response) :
    ((∃ c, httpGet resp = Except.ok c) ∨
      ∃ e, httpGet resp = Except.error e ∧ e.unrecoverable = true) ↔
    isFinalOutcome resp = true := by
  cases resp with
  | transportError => simp [httpGet, isFinalOutcome]
  | status code body =>
    by_cases hc : code = 200
    · subst hc
      cases body <;> simp [httpGet, isFinalOutcome]
    · by_cases h4 : code ≥ 400 ∧ code < 500
      · simp [httpGet, isFinalOutcome, hc, h4, h4.1, h4.2]
      · have h4' : ¬ (400 ≤ code ∧ code < 500) := h4
        simp only [httpGet, isFinalOutcome, hc, h4, ne_eq, not_false_eq_true, if_true, if_false,
          decide_False, Bool.false_and, Bool.false_or, Bool.and_eq_true, decide_eq_true_eq]
        simp [h4']

theorem httpGet_retryable_iff (resp : Response) :
    (∃ e, httpGet resp = Except.error e ∧ e.unrecoverable = false) ↔
    isFinalOutcome resp = false := by
  rw [← Bool.not_eq_true, ← httpGet_final_iff]
  cases h : httpGet resp with
  | ok c => simp
  | error e => cases hu : e.unrecoverable <;> simp [hu]

/-- C2. Whatever the outcomes of the successive requests, `httpGetWithRetries url 3` calls
`httpGet` at least once and at most three times; every attempt before the last one made was
neither a success nor a status in [400,500); when fewer than three attempts were made the
last one was a success or a status in [400,500); the call succeeds exactly when its last
attempt does. A 404 on the first attempt gives one attempt and an error, a 503 on every
attempt gives three attempts and an error, and a transport error or a body-read failure on
an attempt that leaves fewer than three made is followed by another attempt. -/
theorem C2_retry_policy (responses : Nat → Response) :
    (1 ≤ (httpGetWithRetries responses 3).calls ∧ (httpGetWithRetries responses 3).calls ≤ 3) ∧
    (∀ j, j + 1 < (httpGetWithRetries responses 3).calls →
      isFinalOutcome (responses j) = false) ∧
    ((httpGetWithRetries responses 3).calls < 3 →
      isFinalOutcome (responses ((httpGetWithRetries responses 3).calls - 1)) = true) ∧
    ((∃ c, (httpGetWithRetries responses 3).result = Except.ok c) ↔
      isSuccess (responses ((httpGetWithRetries responses 3).calls - 1)) = true) ∧
    ((∃ body, responses 0 = Response.status 404 body) →
      (httpGetWithRetries responses 3).calls = 1 ∧
      ∀ c, (httpGetWithRetries responses 3).result ≠ Except.ok c) ∧
    ((∀ n, ∃ body, responses n = Response.status 503 body) →
      (httpGetWithRetries responses 3).calls = 3 ∧
      ∀ c, (httpGetWithRetries responses 3).result ≠ Except.ok c) ∧
    (∀ j, j < (httpGetWithRetries responses 3).calls → j + 1 < 3 →
      (responses j = Response.transportError ∨ responses j = Response.status 200 none) →
      j + 1 < (httpGetWithRetries responses 3).calls) := by
  obtain ⟨h1, h2, h3, h4, h5⟩ := retryDo_spec (fun n => httpGet (responses n)) 2 0 []
  have hdef : httpGetWithRetries responses 3 =
      retryDo (fun n => httpGet (responses n)) (2 + 1) 0 [] := rfl
  rw [hdef]
  generalize retryDo (fun n => httpGet (responses n)) (2 + 1) 0 [] = r at h1 h2 h3 h4 h5
  have hnotfinal : ∀ j, j + 1 < r.calls → isFinalOutcome (responses j) = false := by
    intro j hj
    exact (httpGet_retryable_iff _).1 (h3 j (Nat.zero_le j) hj)
  have hfinal : r.calls < 3 → isFinalOutcome (responses (r.calls - 1)) = true := by
    intro hlt
    exact (httpGet_final_iff _).1 (h4 (by omega))
  have hok : (∃ c, r.result = Except.ok c) ↔ isSuccess (responses (r.calls - 1)) = true := by
    rw [← httpGet_ok_iff]
    constructor
    · rintro ⟨c, hc⟩; exact ⟨c, (h5 c).1 hc⟩
    · rintro ⟨c, hc⟩; exact ⟨c, (h5 c).2 hc⟩
  refine ⟨⟨by omega, by omega⟩, hnotfinal, hfinal, hok, ?_, ?_, ?_⟩
  · rintro ⟨body, hb⟩
    have hc1 : r.calls = 1 := by
      by_contra hne
      have := hnotfinal 0 (by omega)
      rw [hb] at this
      simp [isFinalOutcome] at this
    refine ⟨hc1, ?_⟩
    intro c hc
    have := hok.1 ⟨c, hc⟩
    rw [hc1, hb] at this
    simp [isSuccess] at this
  · intro hall
    have hnf : ∀ n, isFinalOutcome (responses n) = false := by
      intro n
      obtain ⟨body, hb⟩ := hall n
      rw [hb]
      simp [isFinalOutcome]
    have hc3 : r.calls = 3 := by
      by_contra hne
      have := hfinal (by omega)
      rw [hnf] at this
      cases this
    refine ⟨hc3, ?_⟩
    intro c hc
    have := hok.1 ⟨c, hc⟩
    obtain ⟨body, hb⟩ := hall (r.calls - 1)
    rw [hb] at this
    simp [isSuccess] at this
  · intro j hj hj3 hresp
    by_contra hlt
    have hjc : j = r.calls - 1 := by omega
    have := hfinal (by omega)
    rw [← hjc] at this
    rcases hresp with h | h <;> rw [h] at this <;> simp [isFinalOutcome] at this

/-! ## Paths -/

theorem digitChar_ne_separator (d : Nat) (hd : d < 10) : Nat.digitChar d ≠ '/' := by
  interval_cases d <;> decide

theorem toDigitsCore_no_separator (fuel n : Nat) (ds : List Char)
    (hds : ∀ c ∈ ds, c ≠ '/') : ∀ c ∈ Nat.toDigitsCore 10 fuel n ds, c ≠ '/' := by
  induction fuel generalizing n ds with
  | zero => simpa [Nat.toDigitsCore] using hds
  | succ fuel ih =>
    have hcons : ∀ c ∈ Nat.digitChar (n % 10) :: ds, c ≠ '/' := by
      intro c hc
      rcases List.mem_cons.1 hc with rfl | h
      · exact digitChar_ne_separator _ (Nat.mod_lt _ (by decide))
      · exact hds c h
    unfold Nat.toDigitsCore
    dsimp only
    split_ifs
    · exact hcons
    · exact ih _ _ hcons

theorem uitoa_no_separator (n : Nat) : '/' ∉ uitoa n := by
  intro h
  exact toDigitsCore_no_separator (n + 1) n [] (by simp) '/' h rfl

theorem lastElement_split (front elem : Str) (helem : '/' ∉ elem) :
    (front ++ '/' :: elem).reverse.takeWhile (fun c => decide (c ≠ '/')) = elem.reverse ∧
    (front ++ '/' :: elem).reverse.dropWhile (fun c => decide (c ≠ '/')) =
      (front ++ ['/']).reverse := by
  have hrev : (front ++ '/' :: elem).reverse = elem.reverse ++ '/' :: front.reverse := by simp
  have hall : ∀ a ∈ elem.reverse, (fun c => decide (c ≠ '/')) a = true := by
    intro a ha
    have : a ≠ '/' := fun h => helem (h ▸ List.mem_reverse.1 ha)
    simpa using this
  rw [hrev, List.takeWhile_append_of_pos hall, List.dropWhile_append_of_pos hall]
  simp

theorem joinPath_split (dir elem : Str) :
    ∃ front, joinPath dir elem = front ++ '/' :: elem ∧
      ((dir.getLast? = some '/' ∧ front ++ ['/'] = dir) ∨
        (dir.getLast? ≠ some '/' ∧ front = dir)) := by
  unfold joinPath
  by_cases h : dir.getLast? = some '/'
  · obtain ⟨front, hfront⟩ : ∃ front, dir = front ++ ['/'] := by
      rcases List.eq_nil_or_concat dir with rfl | ⟨l, a, rfl⟩
      · simp at h
      · rw [List.concat_eq_append] at h ⊢
        rw [List.getLast?_concat] at h
        exact ⟨l, by simp at h; rw [h]⟩
    refine ⟨front, ?_, Or.inl ⟨h, hfront.symm⟩⟩
    rw [if_pos h, hfront]
    simp
  · exact ⟨dir, by rw [if_neg h], Or.inr ⟨h, rfl⟩⟩

theorem stripTrailingSeparators_of_last (path : Str) (h : path.getLast? ≠ some '/') :
    stripTrailingSeparators path = path := by
  unfold stripTrailingSeparators
  rw [List.getLast?_eq_head?_reverse] at h
  cases hr : path.reverse with
  | nil =>
    have : path = [] := by simpa using hr
    simp [this]
  | cons a l =>
    rw [hr] at h
    have ha : a ≠ '/' := by simpa using h
    rw [List.dropWhile_cons_of_neg (by simpa using ha), ← hr, List.reverse_reverse]

theorem filepathBase_of_split (front elem : Str) (hne : elem ≠ []) (helem : '/' ∉ elem) :
    filepathBase (front ++ '/' :: elem) = elem := by
  have hlast : (front ++ '/' :: elem).getLast? ≠ some '/' := by
    rcases List.eq_nil_or_concat elem with rfl | ⟨l, a, rfl⟩
    · exact absurd rfl hne
    · rw [List.concat_eq_append] at hne helem ⊢
      have ha : a ≠ '/' := fun h => helem (by simp [h])
      rw [show front ++ '/' :: (l ++ [a]) = (front ++ '/' :: l) ++ [a] by simp,
        List.getLast?_concat]
      simpa using ha
  unfold filepathBase
  rw [if_neg (by simp), stripTrailingSeparators_of_last _ hlast]
  simp only [(lastElement_split front elem helem).1, List.reverse_reverse]
  rw [if_neg hne]

theorem filepathBase_of_element (elem : Str) (hne : elem ≠ []) (helem : '/' ∉ elem) :
    filepathBase elem = elem := by
  have hlast : elem.getLast? ≠ some '/' := fun h => helem (List.mem_of_mem_getLast? h)
  have hall : ∀ a ∈ elem.reverse, (fun c => decide (c ≠ '/')) a = true := by
    intro a ha
    have : a ≠ '/' := fun h => helem (h ▸ List.mem_reverse.1 ha)
    simpa using this
  unfold filepathBase
  rw [if_neg hne, stripTrailingSeparators_of_last _ hlast]
  have htake : elem.reverse.takeWhile (fun c => decide (c ≠ '/')) = elem.reverse := by
    rw [List.takeWhile_eq_self_iff]
    exact hall
  simp only [htake, List.reverse_reverse]
  rw [if_neg hne]

theorem filepathBase_joinPath (dir elem : Str) (hne : elem ≠ []) (helem : '/' ∉ elem) :
    filepathBase (joinPath dir elem) = elem := by
  obtain ⟨front, hj, -⟩ := joinPath_split dir elem
  rw [hj]
  exact filepathBase_of_split front elem hne helem

/-! ## `filepath.Clean` and `filepath.Join` -/

theorem splitSep_ne_nil (p : Str) : splitSep p ≠ [] := by
  cases p with
  | nil => simp [splitSep]
  | cons c rest =>
    unfold splitSep
    split_ifs <;> simp

theorem splitSep_cons_sep (rest : Str) : splitSep ('/' :: rest) = [] :: splitSep rest := by
  rw [splitSep, if_pos rfl]

theorem splitSep_cons_other (c : Char) (rest : Str) (hc : c ≠ '/') :
    splitSep (c :: rest) = (c :: (splitSep rest).headD []) :: (splitSep rest).tail := by
  rw [splitSep, if_neg hc]

theorem splitSep_nosep (x : Str) (h : '/' ∉ x) : splitSep x = [x] := by
  induction x with
  | nil => rfl
  | cons c rest ih =>
    have hc : c ≠ '/' := fun hc => h (hc ▸ List.mem_cons_self _ _)
    have hrest : '/' ∉ rest := fun hm => h (List.mem_cons_of_mem _ hm)
    rw [splitSep_cons_other c rest hc, ih hrest]
    rfl

theorem splitSep_append (d x : Str) : splitSep (d ++ '/' :: x) = splitSep d ++ splitSep x := by
  induction d with
  | nil => rw [List.nil_append, splitSep_cons_sep]; rfl
  | cons c rest ih =>
    rw [List.cons_append]
    by_cases hc : c = '/'
    · subst hc
      rw [splitSep_cons_sep, splitSep_cons_sep, ih]
      rfl
    · rw [splitSep_cons_other _ _ hc, splitSep_cons_other _ _ hc, ih]
      cases hs : splitSep rest with
      | nil => exact absurd hs (splitSep_ne_nil rest)
      | cons e es => rfl

theorem splitSep_mem_nosep (p e : Str) (he : e ∈ splitSep p) : '/' ∉ e := by
  induction p generalizing e with
  | nil =>
    have : e = [] := by simpa [splitSep] using he
    rw [this]; simp
  | cons c rest ih =>
    by_cases hc : c = '/'
    · subst hc
      rw [splitSep_cons_sep] at he
      rcases List.mem_cons.1 he with rfl | h
      · simp
      · exact ih e h
    · rw [splitSep_cons_other _ _ hc] at he
      cases hs : splitSep rest with
      | nil => exact absurd hs (splitSep_ne_nil rest)
      | cons e0 es =>
        rw [hs] at he ih
        rcases List.mem_cons.1 he with rfl | h
        · intro hm
          rcases List.mem_cons.1 hm with h1 | h1
          · exact hc h1.symm
          · exact ih e0 (List.mem_cons_self _ _) h1
        · exact ih e (List.mem_cons_of_mem _ h)

theorem joinSep_snoc (l : List Str) (x : Str) (hl : l ≠ []) :
    joinSep (l ++ [x]) = joinSep l ++ '/' :: x := by
  induction l with
  | nil => exact absurd rfl hl
  | cons e es ih =>
    cases es with
    | nil => rfl
    | cons e' es' =>
      have := ih (by simp)
      show e ++ '/' :: joinSep ((e' :: es') ++ [x]) = (e ++ '/' :: joinSep (e' :: es')) ++ '/' :: x
      rw [this]
      simp

theorem splitSep_joinSep (l : List Str) (hl : l ≠ []) (h : ∀ e ∈ l, '/' ∉ e) :
    splitSep (joinSep l) = l := by
  induction l with
  | nil => exact absurd rfl hl
  | cons e es ih =>
    cases es with
    | nil => exact splitSep_nosep e (h e (List.mem_cons_self _ _))
    | cons e' es' =>
      show splitSep (e ++ '/' :: joinSep (e' :: es')) = _
      rw [splitSep_append, splitSep_nosep e (h e (List.mem_cons_self _ _)),
        ih (by simp) (fun a ha => h a (List.mem_cons_of_mem _ ha))]
      rfl

theorem cleanStep_plain (rooted : Bool) (out : List Str) (e : Str) (he : Plain e) :
    cleanStep rooted out e = e :: out := by
  unfold cleanStep
  rw [if_neg he.1, if_neg he.2.1, if_neg he.2.2.1]

theorem foldl_cleanStep_plain (rooted : Bool) (l acc : List Str) (h : ∀ e ∈ l, Plain e) :
    l.foldl (cleanStep rooted) acc = l.reverse ++ acc := by
  induction l generalizing acc with
  | nil => rfl
  | cons e es ih =>
    rw [List.foldl_cons, cleanStep_plain rooted acc e (h e (List.mem_cons_self _ _)),
      ih _ (fun a ha => h a (List.mem_cons_of_mem _ ha))]
    simp

theorem foldl_cleanStep_dots (n k : Nat) :
    (List.replicate n ['.', '.']).foldl (cleanStep false) (List.replicate k ['.', '.']) =
      List.replicate (n + k) ['.', '.'] := by
  induction n generalizing k with
  | zero => simp
  | succ n ih =>
    rw [List.replicate_succ, List.foldl_cons]
    have hstep : cleanStep false (List.replicate k ['.', '.']) ['.', '.'] =
        List.replicate (k + 1) ['.', '.'] := by
      cases k with
      | zero => decide
      | succ k =>
        rw [List.replicate_succ]
        unfold cleanStep
        simp [List.replicate_succ]
    rw [hstep, ih (k + 1)]
    congr 1
    omega

theorem cleanStep_stack (rooted : Bool) (out : List Str) (elem : Str) (hsep : '/' ∉ elem)
    (h : CleanStack rooted out) : CleanStack rooted (cleanStep rooted out elem) := by
  obtain ⟨normals, k, rfl, hk, hn⟩ := h
  unfold cleanStep
  by_cases h0 : elem = []
  · rw [if_pos h0]; exact ⟨normals, k, rfl, hk, hn⟩
  · rw [if_neg h0]
    by_cases h1 : elem = ['.']
    · rw [if_pos h1]; exact ⟨normals, k, rfl, hk, hn⟩
    · rw [if_neg h1]
      by_cases h2 : elem = ['.', '.']
      · rw [if_pos h2]
        cases normals with
        | nil =>
          cases k with
          | zero =>
            cases rooted
            · exact ⟨[], 1, by simp [h2], by simp, by simp⟩
            · exact ⟨[], 0, by simp, by simp, by simp⟩
          | succ k =>
            cases rooted
            · refine ⟨[], k + 2, ?_, by simp, by simp⟩
              simp [List.replicate_succ, h2]
            · exact absurd (hk rfl) (by simp)
        | cons top below =>
          have htop : top ≠ ['.', '.'] := (hn top (List.mem_cons_self _ _)).2.2.1
          have hbelow : ∀ e ∈ below, Plain e := fun e he => hn e (List.mem_cons_of_mem _ he)
          cases rooted
          · simp only [List.cons_append, Bool.false_eq_true, if_false, htop]
            exact ⟨below, k, rfl, hk, hbelow⟩
          · simp only [List.cons_append, if_true]
            exact ⟨below, k, rfl, hk, hbelow⟩
      · rw [if_neg h2]
        refine ⟨elem :: normals, k, by simp, hk, ?_⟩
        intro e he
        rcases List.mem_cons.1 he with rfl | he'
        · exact ⟨h0, h1, h2, hsep⟩
        · exact hn e he'

theorem cleanOut_stack (rooted : Bool) (path : Str) : CleanStack rooted (cleanOut rooted path) := by
  unfold cleanOut
  have hgen : ∀ (l : List Str) (acc : List Str), (∀ e ∈ l, '/' ∉ e) → CleanStack rooted acc →
      CleanStack rooted (l.foldl (cleanStep rooted) acc) := by
    intro l
    induction l with
    | nil => intro acc _ h; exact h
    | cons e es ih =>
      intro acc hl h
      exact ih _ (fun a ha => hl a (List.mem_cons_of_mem _ ha))
        (cleanStep_stack rooted acc e (hl e (List.mem_cons_self _ _)) h)
  exact hgen _ _ (fun e he => splitSep_mem_nosep path e he) ⟨[], 0, by simp, by simp, by simp⟩

theorem refold_stack (rooted : Bool) (out : List Str) (h : CleanStack rooted out) :
    out.reverse.foldl (cleanStep rooted) [] = out := by
  obtain ⟨normals, k, rfl, hk, hn⟩ := h
  rw [List.reverse_append, List.reverse_replicate, List.foldl_append]
  have hdots : (List.replicate k ['.', '.']).foldl (cleanStep rooted) [] =
      List.replicate k ['.', '.'] := by
    cases rooted
    · have := foldl_cleanStep_dots k 0
      simpa using this
    · rw [hk rfl]; rfl
  rw [hdots, foldl_cleanStep_plain rooted _ _ (fun e he => hn e (List.mem_reverse.1 he)),
    List.reverse_reverse]

theorem stack_elem (rooted : Bool) (out : List Str) (h : CleanStack rooted out) :
    ∀ e ∈ out, e ≠ [] ∧ '/' ∉ e := by
  obtain ⟨normals, k, rfl, -, hn⟩ := h
  intro e he
  rcases List.mem_append.1 he with h1 | h1
  · exact ⟨(hn e h1).1, (hn e h1).2.2.2⟩
  · rw [List.eq_of_mem_replicate h1]
    exact ⟨by simp, by decide⟩

theorem joinSep_shape (l : List Str) (hl : l ≠ []) (h : ∀ e ∈ l, e ≠ [] ∧ '/' ∉ e) :
    joinSep l ≠ [] ∧ (joinSep l).head? ≠ some '/' ∧ (joinSep l).getLast? ≠ some '/' := by
  induction l with
  | nil => exact absurd rfl hl
  | cons e es ih =>
    obtain ⟨hene, hesep⟩ := h e (List.mem_cons_self _ _)
    cases es with
    | nil =>
      show e ≠ [] ∧ e.head? ≠ some '/' ∧ e.getLast? ≠ some '/'
      refine ⟨hene, ?_, ?_⟩
      · intro hh
        exact hesep (List.mem_of_mem_head? hh)
      · intro hh
        exact hesep (List.mem_of_mem_getLast? hh)
    | cons e' es' =>
      obtain ⟨h1, -, h3⟩ := ih (by simp) (fun a ha => h a (List.mem_cons_of_mem _ ha))
      show e ++ '/' :: joinSep (e' :: es') ≠ [] ∧
        (e ++ '/' :: joinSep (e' :: es')).head? ≠ some '/' ∧
        (e ++ '/' :: joinSep (e' :: es')).getLast? ≠ some '/'
      refine ⟨by simp, ?_, ?_⟩
      · intro hh
        cases e with
        | nil => exact hene rfl
        | cons c cs =>
          simp only [List.cons_append, List.head?_cons, Option.some.injEq] at hh
          exact hesep (hh ▸ List.mem_cons_self _ _)
      · rw [show e ++ '/' :: joinSep (e' :: es') = (e ++ ['/']) ++ joinSep (e' :: es') by simp,
          List.getLast?_append_of_ne_nil _ h1]
        exact h3

theorem renderClean_ne_nil (rooted : Bool) (out : List Str) (h : CleanStack rooted out) :
    renderClean rooted out ≠ [] := by
  unfold renderClean
  cases rooted
  · simp only [Bool.false_eq_true, if_false]
    by_cases ho : out = []
    · rw [if_pos ho]; simp
    · rw [if_neg ho]
      exact (joinSep_shape out.reverse (by simpa using ho)
        (fun e he => stack_elem false out h e (List.mem_reverse.1 he))).1
  · simp

theorem renderClean_last (rooted : Bool) (out : List Str) (h : CleanStack rooted out)
    (hlast : (renderClean rooted out).getLast? = some '/') : renderClean rooted out = ['/'] := by
  unfold renderClean at hlast ⊢
  by_cases ho : out = []
  · subst ho
    cases rooted
    · simp at hlast
    · rfl
  · have hshape := joinSep_shape out.reverse (by simpa using ho)
      (fun e he => stack_elem rooted out h e (List.mem_reverse.1 he))
    exfalso
    cases rooted
    · simp only [Bool.false_eq_true, if_false, if_neg ho] at hlast
      exact hshape.2.2 hlast
    · simp only [if_true] at hlast
      rw [show '/' :: joinSep out.reverse = ['/'] ++ joinSep out.reverse by rfl,
        List.getLast?_append_of_ne_nil _ hshape.1] at hlast
      exact hshape.2.2 hlast

theorem filepathClean_ne_nil (path : Str) : filepathClean path ≠ [] := by
  unfold filepathClean
  split_ifs
  · simp
  · exact renderClean_ne_nil _ _ (cleanOut_stack _ _)

theorem filepathClean_last (path : Str) (h : (filepathClean path).getLast? = some '/') :
    filepathClean path = ['/'] := by
  unfold filepathClean at h ⊢
  split_ifs at h ⊢ with h0
  · simp at h
  · exact renderClean_last _ _ (cleanOut_stack _ _) h

theorem filepathClean_render (rooted : Bool) (out : List Str) (h : CleanStack rooted out) :
    filepathClean (renderClean rooted out) = renderClean rooted out := by
  by_cases ho : out = []
  · subst ho
    cases rooted <;> decide
  · have hrev : out.reverse ≠ [] := by simpa using ho
    have helem : ∀ e ∈ out.reverse, e ≠ [] ∧ '/' ∉ e :=
      fun e he => stack_elem rooted out h e (List.mem_reverse.1 he)
    have hshape := joinSep_shape out.reverse hrev helem
    have hsplit := splitSep_joinSep out.reverse hrev (fun e he => (helem e he).2)
    cases rooted
    · have hr : renderClean false out = joinSep out.reverse := by
        unfold renderClean
        simp [ho]
      rw [hr]
      unfold filepathClean
      rw [if_neg hshape.1]
      have hhead : decide ((joinSep out.reverse).head? = some '/') = false := by
        simpa using hshape.2.1
      rw [hhead]
      unfold cleanOut
      rw [hsplit, refold_stack false out h, hr]
    · have hr : renderClean true out = '/' :: joinSep out.reverse := by
        unfold renderClean
        simp
      rw [hr]
      unfold filepathClean
      rw [if_neg (by simp)]
      have hhead : decide (('/' :: joinSep out.reverse).head? = some '/') = true := by simp
      rw [hhead]
      unfold cleanOut
      rw [splitSep_cons_sep, hsplit, List.foldl_cons]
      have h0 : cleanStep true [] [] = [] := rfl
      rw [h0, refold_stack true out h, hr]

theorem filepathClean_idem (path : Str) :
    filepathClean (filepathClean path) = filepathClean path := by
  by_cases h0 : path = []
  · subst h0; decide
  · have : filepathClean path = renderClean (decide (path.head? = some '/'))
        (cleanOut (decide (path.head? = some '/')) path) := by
      unfold filepathClean
      rw [if_neg h0]
    rw [this]
    exact filepathClean_render _ _ (cleanOut_stack _ _)

theorem head?_append_of_ne_nil (d x : Str) (hd : d ≠ []) : (d ++ x).head? = d.head? := by
  cases d with
  | nil => exact absurd rfl hd
  | cons c cs => rfl

theorem filepathClean_trailing (d : Str) (hd : d ≠ []) :
    filepathClean (d ++ ['/']) = filepathClean d := by
  unfold filepathClean
  rw [if_neg (by simp), if_neg hd, head?_append_of_ne_nil d _ hd]
  unfold cleanOut
  rw [splitSep_append, List.foldl_append]
  rfl

theorem filepathClean_snoc (d x : Str) (hd : d ≠ []) (hx : Plain x) :
    filepathClean (d ++ '/' :: x) =
      renderClean (decide (d.head? = some '/'))
        (x :: cleanOut (decide (d.head? = some '/')) d) := by
  unfold filepathClean
  rw [if_neg (by simp), head?_append_of_ne_nil d _ hd]
  unfold cleanOut
  rw [splitSep_append, List.foldl_append, splitSep_nosep x hx.2.2.2]
  simp only [List.foldl_cons, List.foldl_nil]
  rw [cleanStep_plain _ _ x hx]

theorem filepathClean_plain (x : Str) (hx : Plain x) : filepathClean x = x := by
  unfold filepathClean
  rw [if_neg hx.1]
  have hhead : decide (x.head? = some '/') = false := by
    have : x.head? ≠ some '/' := fun h => hx.2.2.2 (List.mem_of_mem_head? h)
    simpa using this
  rw [hhead]
  unfold cleanOut
  rw [splitSep_nosep x hx.2.2.2]
  simp only [List.foldl_cons, List.foldl_nil]
  rw [cleanStep_plain _ _ x hx]
  rfl

/-- The joined path ends in the joined element. -/
theorem filepathJoin_ends (dir x : Str) (hx : Plain x) :
    filepathJoin dir x = x ∨ ∃ front, filepathJoin dir x = front ++ '/' :: x := by
  unfold filepathJoin
  by_cases hd : dir = []
  · left
    simp only [hd, ne_eq, not_true_eq_false, if_false, hx.1, not_false_eq_true, if_true]
    exact filepathClean_plain x hx
  · simp only [ne_eq, hd, not_false_eq_true, if_true]
    rw [filepathClean_snoc dir x hd hx]
    generalize decide (dir.head? = some '/') = r
    unfold renderClean
    by_cases ho : cleanOut r dir = []
    · rw [ho]
      cases r
      · left; rfl
      · right; exact ⟨[], rfl⟩
    · right
      have hj : joinSep (x :: cleanOut r dir).reverse =
          joinSep (cleanOut r dir).reverse ++ '/' :: x := by
        rw [List.reverse_cons]
        exact joinSep_snoc _ x (by simpa using ho)
      rw [hj]
      cases r
      · exact ⟨joinSep (cleanOut false dir).reverse, by simp⟩
      · exact ⟨'/' :: joinSep (cleanOut true dir).reverse, by simp⟩

/-- On a directory that is already clean, other than the root and `.`, joining is joining by
the separator. -/
theorem filepathJoin_clean (dir x : Str) (hx : Plain x) (hclean : filepathClean dir = dir)
    (hroot : dir ≠ ['/']) (hdot : dir ≠ ['.']) :
    filepathJoin dir x = dir ++ '/' :: x := by
  have hd : dir ≠ [] := by
    intro h
    rw [h] at hclean
    exact absurd hclean (by decide)
  unfold filepathJoin
  simp only [ne_eq, hd, not_false_eq_true, if_true]
  rw [filepathClean_snoc dir x hd hx]
  have hc : renderClean (decide (dir.head? = some '/'))
      (cleanOut (decide (dir.head? = some '/')) dir) = dir := by
    have := hclean
    unfold filepathClean at this
    rwa [if_neg hd] at this
  generalize decide (dir.head? = some '/') = r at hc ⊢
  have ho : cleanOut r dir ≠ [] := by
    intro ho
    rw [ho] at hc
    unfold renderClean at hc
    cases r
    · exact hdot hc.symm
    · exact hroot hc.symm
  have hj : joinSep (x :: cleanOut r dir).reverse =
      joinSep (cleanOut r dir).reverse ++ '/' :: x := by
    rw [List.reverse_cons]
    exact joinSep_snoc _ x (by simpa using ho)
  conv_rhs => rw [← hc]
  unfold renderClean
  rw [hj]
  cases r
  · simp [ho]
  · simp

/-- The last element of a joined path is the joined element. -/
theorem filepathBase_filepathJoin (dir x : Str) (hx : Plain x) :
    filepathBase (filepathJoin dir x) = x := by
  rcases filepathJoin_ends dir x hx with h | ⟨front, h⟩
  · rw [h]
    exact filepathBase_of_element x hx.1 hx.2.2.2
  · rw [h]
    exact filepathBase_of_split front x hx.1 hx.2.2.2

theorem filepathDir_joinPath (path elem : Str) (helem : '/' ∉ elem) :
    filepathDir (joinPath (filepathClean path) elem) = filepathClean path := by
  obtain ⟨front, hj, hcase⟩ := joinPath_split (filepathClean path) elem
  unfold filepathDir
  rw [hj, (lastElement_split front elem helem).2, List.reverse_reverse]
  rcases hcase with ⟨hlast, hfront⟩ | ⟨-, hfront⟩
  · rw [hfront, filepathClean_last path hlast]
    decide
  · rw [hfront, filepathClean_trailing _ (filepathClean_ne_nil path), filepathClean_idem]

theorem tempPath_dir (name : Str) (rand : Nat) (h : '/' ∉ filepathBase name ++ ['.']) :
    filepathDir (tempPath name rand) = filepathDir name := by
  unfold tempPath
  have helem : '/' ∉ filepathBase name ++ '.' :: uitoa rand := by
    intro hmem
    rcases List.mem_append.1 hmem with h1 | h1
    · exact h (List.mem_append_left _ h1)
    · rcases List.mem_cons.1 h1 with h2 | h2
      · exact absurd h2 (by decide)
      · exact uitoa_no_separator rand h2
  exact filepathDir_joinPath _ _ helem

theorem tempPath_ne (name : Str) (rand : Nat) (h : '/' ∉ filepathBase name ++ ['.']) :
    tempPath name rand ≠ name := by
  intro heq
  have helem : '/' ∉ filepathBase name ++ '.' :: uitoa rand := by
    intro hmem
    rcases List.mem_append.1 hmem with h1 | h1
    · exact h (List.mem_append_left _ h1)
    · rcases List.mem_cons.1 h1 with h2 | h2
      · exact absurd h2 (by decide)
      · exact uitoa_no_separator rand h2
  have hb := filepathBase_joinPath (filepathDir name) (filepathBase name ++ '.' :: uitoa rand)
    (by simp) helem
  unfold tempPath at heq
  rw [heq] at hb
  have := List.self_eq_append_right.1 hb
  cases this

/-! ## The durable writer -/

theorem readFile_unlinkFile (fs : FS) (p q : Str) :
    readFile (unlinkFile fs p) q = if q = p then none else readFile fs q := by
  induction fs with
  | nil => simp [unlinkFile, readFile]
  | cons e rest ih =>
    unfold unlinkFile
    by_cases he : e.1 = p
    · rw [if_pos he, ih]
      by_cases hq : q = p
      · simp [hq]
      · have : ¬ e.1 = q := fun h => hq (h ▸ he)
        simp [hq, readFile, this]
    · rw [if_neg he]
      unfold readFile
      rw [ih]
      by_cases hq : q = p
      · have : ¬ e.1 = q := fun h => he (h.trans hq)
        simp [hq, this, he]
      · simp [hq]

theorem readFile_putFile (fs : FS) (p q : Str) (f : File) :
    readFile (putFile fs p f) q = if q = p then some f else readFile fs q := by
  show (if (p, f).1 = q then some (p, f).2 else readFile (unlinkFile fs p) q) = _
  by_cases hq : q = p
  · simp [hq]
  · have : ¬ p = q := fun h => hq h.symm
    simp [hq, this, readFile_unlinkFile]

theorem readFile_writeContent (fs : FS) (p q : Str) (data : Bytes) (now : Time) :
    readFile (writeContent fs p data now) q =
      if q = p then (readFile fs p).map (fun f => { f with content := data, mtime := now })
      else readFile fs q := by
  unfold writeContent
  cases h : readFile fs p with
  | none => by_cases hq : q = p <;> simp [hq, h]
  | some f => by_cases hq : q = p <;> simp [hq, readFile_putFile]

theorem readFile_chmodFile (fs : FS) (p q : Str) (perm : Nat) :
    readFile (chmodFile fs p perm) q =
      if q = p then (readFile fs p).map (fun f => { f with perm := perm })
      else readFile fs q := by
  unfold chmodFile
  cases h : readFile fs p with
  | none => by_cases hq : q = p <;> simp [hq, h]
  | some f => by_cases hq : q = p <;> simp [hq, readFile_putFile]

theorem readFile_osChtimes_isSome (fs : FS) (p q : Str) (t : Time) :
    (readFile (osChtimes fs p t) q).isSome = (readFile fs q).isSome := by
  unfold osChtimes
  cases h : readFile fs p with
  | none => rfl
  | some f =>
    dsimp only
    split_ifs
    · rfl
    · rw [readFile_putFile]
      by_cases hq : q = p
      · rw [if_pos hq, hq, h]; rfl
      · rw [if_neg hq]

theorem readFile_osRename (fs : FS) (p d q : Str) (f : File) (h : readFile fs p = some f) :
    readFile (osRename fs p d) q =
      if q = d then some f else if q = p then none else readFile fs q := by
  unfold osRename
  rw [h]
  simp only [readFile_putFile, readFile_unlinkFile]

theorem osCreateTemp_some (fs fs1 : FS) (dir stem tmppath : Str) (env : WriteEnv)
    (h : osCreateTemp fs dir stem env = some (tmppath, fs1)) :
    '/' ∉ stem ∧ tmppath = joinPath dir (stem ++ uitoa env.rand) ∧
    readFile fs tmppath = none ∧
    fs1 = putFile fs tmppath { content := [], perm := 0o600, mtime := env.now } := by
  unfold osCreateTemp at h
  dsimp only at h
  split_ifs at h with h1 h2 h3
  simp only [Option.some.injEq, Prod.mk.injEq] at h
  obtain ⟨hp, hfs⟩ := h
  refine ⟨h2, hp.symm, ?_, ?_⟩
  · rw [← hp]
    cases hr : readFile fs (joinPath dir (stem ++ uitoa env.rand)) with
    | none => rfl
    | some f => simp [hr] at h3
  · rw [← hfs, ← hp]

/-- After the deferred `os.Remove` on a file system that differs from `fs` at most at the
temporary path, where `fs` has no file: every other path reads as in `fs`, and the
temporary path has a file exactly when there was one and the removal failed. -/
theorem readFile_after_remove (fs g : FS) (tmp : Str) (fails : Bool)
    (habsent : readFile fs tmp = none)
    (hg : ∀ q, q ≠ tmp → readFile g q = readFile fs q) :
    (∀ q, q ≠ tmp → readFile (osRemove g tmp fails) q = readFile fs q) ∧
    (fails = false → ∀ q, readFile (osRemove g tmp fails) q = readFile fs q) ∧
    (fails = true → readFile (osRemove g tmp fails) tmp = readFile g tmp) := by
  unfold osRemove
  cases fails
  · simp only [Bool.false_eq_true, if_false, readFile_unlinkFile]
    refine ⟨?_, ?_, ?_⟩
    · intro q hq; rw [if_neg hq, hg q hq]
    · intro _ q
      by_cases hq : q = tmp
      · rw [if_pos hq, hq, habsent]
      · rw [if_neg hq, hg q hq]
    · intro h; cases h
  · simp only [if_true]
    exact ⟨hg, fun h => Bool.noConfusion h, fun _ => trivial⟩

/-- What `atomicWriteFile` leaves at every path, case by case. -/
theorem atomicWriteFile_spec (fs : FS) (name : Str) (data : Bytes) (perm : Nat)
    (env : WriteEnv) :
    ((atomicWriteFile fs name data perm env).err = some WriteError.createTemp ∧
      (atomicWriteFile fs name data perm env).fs = fs) ∨
    ('/' ∉ filepathBase name ++ ['.'] ∧ readFile fs (tempPath name env.rand) = none ∧
      (((atomicWriteFile fs name data perm env).err ≠ none ∧
          (atomicWriteFile fs name data perm env).err ≠ some WriteError.createTemp ∧
          (∀ q, q ≠ tempPath name env.rand →
            readFile (atomicWriteFile fs name data perm env).fs q = readFile fs q) ∧
          (env.removeFails = false →
            readFile (atomicWriteFile fs name data perm env).fs (tempPath name env.rand) =
              none) ∧
          (env.removeFails = true →
            (readFile (atomicWriteFile fs name data perm env).fs
              (tempPath name env.rand)).isSome = true)) ∨
        ((atomicWriteFile fs name data perm env).err = none ∧
          ∀ q, readFile (atomicWriteFile fs name data perm env).fs q =
            if q = tempPath name env.rand then none
            else if q = name then some { content := data, perm := perm, mtime := env.now }
            else readFile fs q))) := by
  unfold atomicWriteFile
  cases hc : osCreateTemp fs (filepathDir name) (filepathBase name ++ ['.']) env with
  | none => exact Or.inl ⟨rfl, rfl⟩
  | some r =>
    obtain ⟨tmppath, fs1⟩ := r
    obtain ⟨hstem, htmp, habsent, hfs1⟩ := osCreateTemp_some _ _ _ _ _ _ hc
    have htp : tmppath = tempPath name env.rand := by
      rw [htmp]; unfold tempPath; simp
    subst hfs1
    rw [htp] at habsent
    subst htp
    right
    refine ⟨hstem, habsent, ?_⟩
    have hfail : ∀ (g : FS) (e : WriteError), e ≠ WriteError.createTemp →
        (∀ q, q ≠ tempPath name env.rand → readFile g q = readFile fs q) →
        (readFile g (tempPath name env.rand)).isSome = true →
        (some e ≠ none ∧ some e ≠ some WriteError.createTemp ∧
          (∀ q, q ≠ tempPath name env.rand →
            readFile (osRemove g (tempPath name env.rand) env.removeFails) q =
              readFile fs q) ∧
          (env.removeFails = false →
            readFile (osRemove g (tempPath name env.rand) env.removeFails)
              (tempPath name env.rand) = none) ∧
          (env.removeFails = true →
            (readFile (osRemove g (tempPath name env.rand) env.removeFails)
              (tempPath name env.rand)).isSome = true)) := by
      intro g e he hg hsome
      obtain ⟨h1, h2, h3⟩ := readFile_after_remove fs g (tempPath name env.rand)
        env.removeFails habsent hg
      refine ⟨by simp, by simpa using he, h1, ?_, ?_⟩
      · intro hf; rw [h2 hf, habsent]
      · intro hf; rw [h3 hf]; exact hsome
    have hkeepW : ∀ (d : Bytes) q', q' ≠ tempPath name env.rand →
        readFile (writeContent (putFile fs (tempPath name env.rand)
          { content := [], perm := 0o600, mtime := env.now }) (tempPath name env.rand)
          d env.now) q' = readFile fs q' := by
      intro d q' hq'
      simp [readFile_writeContent, readFile_putFile, hq']
    have hsomeW : ∀ (d : Bytes), (readFile (writeContent (putFile fs (tempPath name env.rand)
          { content := [], perm := 0o600, mtime := env.now }) (tempPath name env.rand)
          d env.now) (tempPath name env.rand)).isSome = true := by
      intro d
      simp [readFile_writeContent, readFile_putFile]
    have hkeep : ∀ q', q' ≠ tempPath name env.rand →
        readFile (chmodFile (writeContent (putFile fs (tempPath name env.rand)
          { content := [], perm := 0o600, mtime := env.now }) (tempPath name env.rand)
          data env.now) (tempPath name env.rand) perm) q' = readFile fs q' := by
      intro q' hq'
      simp [readFile_chmodFile, readFile_writeContent, readFile_putFile, hq']
    have hread : readFile (chmodFile (writeContent (putFile fs (tempPath name env.rand)
        { content := [], perm := 0o600, mtime := env.now }) (tempPath name env.rand)
        data env.now) (tempPath name env.rand) perm) (tempPath name env.rand) =
        some { content := data, perm := perm, mtime := env.now } := by
      simp [readFile_chmodFile, readFile_writeContent, readFile_putFile]
    cases hw : env.writeFailsAfter with
    | some k =>
      left
      exact hfail _ WriteError.write (by decide) (hkeepW _) (hsomeW _)
    | none =>
      cases hchmod : env.chmodFails with
      | true =>
        left
        simp only [if_true]
        exact hfail _ WriteError.chmod (by decide) (hkeepW _) (hsomeW _)
      | false =>
        cases hclose : env.closeFails with
        | true =>
          left
          simp only [Bool.false_eq_true, if_true, if_false]
          exact hfail _ WriteError.close (by decide) hkeep (by rw [hread]; rfl)
        | false =>
          cases hren : env.renameFails with
          | true =>
            left
            simp only [Bool.false_eq_true, if_true, if_false]
            exact hfail _ WriteError.rename (by decide) hkeep (by rw [hread]; rfl)
          | false =>
            right
            simp only [Bool.false_eq_true, if_false]
            refine ⟨trivial, fun q => ?_⟩
            have hren : ∀ q', readFile (osRename (chmodFile (writeContent (putFile fs
                (tempPath name env.rand) { content := [], perm := 0o600, mtime := env.now })
                (tempPath name env.rand) data env.now) (tempPath name env.rand) perm)
                (tempPath name env.rand) name) q' =
                if q' = name then some { content := data, perm := perm, mtime := env.now }
                else if q' = tempPath name env.rand then none else readFile fs q' := by
              intro q'
              rw [readFile_osRename _ _ _ _ _ hread]
              by_cases hn : q' = name
              · simp [hn]
              · by_cases hq : q' = tempPath name env.rand
                · simp [hn, hq]
                · simp [hn, hq, hkeep q' hq]
            have hne := tempPath_ne name env.rand hstem
            unfold osRemove
            cases env.removeFails
            · simp only [Bool.false_eq_true, if_false, readFile_unlinkFile, hren]
              by_cases hq : q = tempPath name env.rand
              · simp [hq]
              · by_cases hn : q = name
                · simp [hq, hn]
                · simp [hq, hn]
            · simp only [if_true, hren]
              by_cases hq : q = tempPath name env.rand
              · rw [hq, if_neg hne, if_pos rfl, if_pos rfl]
              · by_cases hn : q = name
                · simp [hn, Ne.symm hne]
                · simp [hq, hn]

theorem atomicWriteFile_success (fs : FS) (name : Str) (data : Bytes) (perm : Nat)
    (env : WriteEnv) (h : (atomicWriteFile fs name data perm env).err = none) :
    readFile (atomicWriteFile fs name data perm env).fs name =
      some { content := data, perm := perm, mtime := env.now } ∧
    readFile (atomicWriteFile fs name data perm env).fs (tempPath name env.rand) = none := by
  rcases atomicWriteFile_spec fs name data perm env with
    ⟨herr, -⟩ | ⟨hstem, -, ⟨herr, -⟩ | ⟨-, hq⟩⟩
  · rw [herr] at h; cases h
  · exact absurd h herr
  · have hne := tempPath_ne name env.rand hstem
    exact ⟨by rw [hq, if_neg (Ne.symm hne), if_pos rfl], by rw [hq, if_pos rfl]⟩

theorem atomicWriteFile_keeps_files (fs : FS) (name : Str) (data : Bytes) (perm : Nat)
    (env : WriteEnv) (path : Str) (h : (readFile fs path).isSome = true) :
    (readFile (atomicWriteFile fs name data perm env).fs path).isSome = true := by
  have hp : readFile fs (tempPath name env.rand) = none → path ≠ tempPath name env.rand := by
    intro habsent hp
    rw [hp, habsent] at h
    cases h
  rcases atomicWriteFile_spec fs name data perm env with
    ⟨-, hfs⟩ | ⟨-, habsent, ⟨-, -, hq, -⟩ | ⟨-, hq⟩⟩
  · rw [hfs]; exact h
  · rw [hq path (hp habsent)]; exact h
  · rw [hq, if_neg (hp habsent)]
    split_ifs
    · rfl
    · exact h

/-- C8, refuted as stated: on an empty file system, with `Chmod` failing and the deferred
`os.Remove` failing too, `atomicWriteFile` returns the chmod error and the temporary file
is still there. -/
theorem C8_counterexample :
    (atomicWriteFile [] "data/ab.png".toList [1, 2, 3] 0o644 writeEnvChmodRemoveFail).err =
      some WriteError.chmod ∧
    tempPath "data/ab.png".toList writeEnvChmodRemoveFail.rand = "data/ab.png.42".toList ∧
    readFile
      (atomicWriteFile [] "data/ab.png".toList [1, 2, 3] 0o644 writeEnvChmodRemoveFail).fs
      "data/ab.png.42".toList = some { content := [1, 2, 3], perm := 0o600, mtime := 1000 } := by
  decide

/-- C8, amended. Over an explicit file system: when `atomicWriteFile` fails at any step
(temp-file creation, write, chmod, close or rename) the destination path reads as before
the call; a failure at temp-file creation leaves the file system as it was; after a failure
at a later step no file is left at the temporary path provided the deferred `os.Remove`,
whose error is discarded, did not fail, and the temporary file is left behind when it did.
When `atomicWriteFile` succeeds the destination holds exactly `data` (with the asked
permission) and no file is left at the temporary path, whatever `os.Remove` answers. No
other path changes, and the temporary file, whenever one is created, lies in the directory
of the destination and is not the destination. -/
theorem C8_durable_write (fs : FS) (name : Str) (data : Bytes) (perm : Nat) (env : WriteEnv) :
    ((atomicWriteFile fs name data perm env).err ≠ none →
      readFile (atomicWriteFile fs name data perm env).fs name = readFile fs name ∧
      ((atomicWriteFile fs name data perm env).err = some WriteError.createTemp →
        (atomicWriteFile fs name data perm env).fs = fs) ∧
      ((atomicWriteFile fs name data perm env).err ≠ some WriteError.createTemp →
        (env.removeFails = false →
          readFile (atomicWriteFile fs name data perm env).fs (tempPath name env.rand) =
            none) ∧
        (env.removeFails = true →
          (readFile (atomicWriteFile fs name data perm env).fs
            (tempPath name env.rand)).isSome = true))) ∧
    ((atomicWriteFile fs name data perm env).err = none →
      readFile (atomicWriteFile fs name data perm env).fs name =
        some { content := data, perm := perm, mtime := env.now } ∧
      readFile (atomicWriteFile fs name data perm env).fs (tempPath name env.rand) = none) ∧
    (∀ q, q ≠ name → q ≠ tempPath name env.rand →
      readFile (atomicWriteFile fs name data perm env).fs q = readFile fs q) ∧
    ((atomicWriteFile fs name data perm env).err ≠ some WriteError.createTemp →
      readFile fs (tempPath name env.rand) = none ∧
      filepathDir (tempPath name env.rand) = filepathDir name ∧
      tempPath name env.rand ≠ name) := by
  rcases atomicWriteFile_spec fs name data perm env with
    ⟨herr, hfs⟩ | ⟨hstem, habsent, ⟨herr, hnc, hq, hrm, hrf⟩ | ⟨herr, hq⟩⟩
  · refine ⟨fun _ => ⟨by rw [hfs], fun _ => hfs, fun h => absurd herr h⟩, ?_, ?_, ?_⟩
    · intro h; rw [herr] at h; cases h
    · intro q _ _; rw [hfs]
    · intro h; exact absurd herr h
  · have hne := tempPath_ne name env.rand hstem
    refine ⟨fun _ => ⟨hq name (Ne.symm hne), fun hc => absurd hc hnc, fun _ => ⟨hrm, hrf⟩⟩,
      ?_, ?_, ?_⟩
    · intro h; exact absurd h herr
    · intro q _ h2; exact hq q h2
    · intro _; exact ⟨habsent, tempPath_dir name env.rand hstem, hne⟩
  · have hne := tempPath_ne name env.rand hstem
    refine ⟨fun h => absurd herr h, fun _ => ⟨?_, ?_⟩, ?_, ?_⟩
    · rw [hq, if_neg (Ne.symm hne), if_pos rfl]
    · rw [hq, if_pos rfl]
    · intro q h1 h2; rw [hq, if_neg h2, if_neg h1]
    · intro _; exact ⟨habsent, tempPath_dir name env.rand hstem, hne⟩

/-! ## Downloading one sticker -/

theorem extensionOf_mem (mime : Str) :
    extensionOf mime ∈ [".gif".toList, ".jpg".toList, ".png".toList] := by
  unfold extensionOf
  split_ifs <;> simp

/-- The file name `DownloadTo` chooses for an id without a separator is a plain element. -/
theorem filename_plain_of (id ext : Str) (hne : id ≠ []) (hsep : '/' ∉ id)
    (hext : ext ∈ [".gif".toList, ".jpg".toList, ".png".toList]) : Plain (id ++ ext) := by
  have hshape : ext.length = 4 ∧ '/' ∉ ext := by
    simp only [List.mem_cons, List.mem_singleton, List.not_mem_nil, or_false] at hext
    rcases hext with rfl | rfl | rfl <;> exact ⟨rfl, by decide⟩
  refine ⟨?_, ?_, ?_, ?_⟩
  · intro h
    have := congrArg List.length h
    simp only [List.length_append, List.length_nil] at this
    omega
  · intro h
    have := congrArg List.length h
    simp only [List.length_append, List.length_singleton] at this
    omega
  · intro h
    have := congrArg List.length h
    simp only [List.length_append, List.length_cons, List.length_singleton,
      List.length_nil] at this
    omega
  · intro hmem
    rcases List.mem_append.1 hmem with h1 | h1
    · exact hsep h1
    · exact hshape.2 h1

theorem DownloadTo_success (s : Sticker) (dir : Str) (fs : FS) (env : DownloadEnv)
    (h : (DownloadTo s dir fs env).err = none) :
    ∃ ext ∈ [".gif".toList, ".jpg".toList, ".png".toList],
      (DownloadTo s dir fs env).sticker =
        { s with DownloadedPath := filepathJoin dir (s.ID ++ ext) } ∧
      (readFile (DownloadTo s dir fs env).fs (filepathJoin dir (s.ID ++ ext))).isSome = true := by
  unfold DownloadTo at h ⊢
  by_cases hid : s.ID = []
  · simp [hid] at h
  · by_cases hurl : s.URL = []
    · simp [hid, hurl] at h
    · simp only [hid, hurl, if_false] at h ⊢
      cases hres : (httpGetWithRetries env.responses 3).result with
      | error errs => simp [hres] at h
      | ok content =>
        simp only [hres] at h ⊢
        cases hw : (atomicWriteFile fs
            (filepathJoin dir (s.ID ++ extensionOf (env.detect content))) content 0o644
            env.write).err with
        | some e => simp [hw] at h
        | none =>
          simp only [hw]
          refine ⟨extensionOf (env.detect content), extensionOf_mem _, rfl, ?_⟩
          have hdest := ((atomicWriteFile_success fs _ content 0o644 env.write) hw).1
          cases env.chtimesFails
          · simp only [Bool.false_eq_true, if_false]
            rw [readFile_osChtimes_isSome, hdest]
            rfl
          · simp only [if_true]
            rw [hdest]
            rfl

theorem DownloadTo_keeps_files (s : Sticker) (dir : Str) (fs : FS) (env : DownloadEnv)
    (path : Str) (h : (readFile fs path).isSome = true) :
    (readFile (DownloadTo s dir fs env).fs path).isSome = true := by
  unfold DownloadTo
  by_cases hid : s.ID = []
  · simpa [hid] using h
  · by_cases hurl : s.URL = []
    · simpa [hid, hurl] using h
    · simp only [hid, hurl, if_false]
      cases hres : (httpGetWithRetries env.responses 3).result with
      | error errs => simpa using h
      | ok content =>
        have hkeep := atomicWriteFile_keeps_files fs
          (filepathJoin dir (s.ID ++ extensionOf (env.detect content))) content 0o644
          env.write path h
        simp only
        cases hw : (atomicWriteFile fs
            (filepathJoin dir (s.ID ++ extensionOf (env.detect content))) content 0o644
            env.write).err with
        | some e => simpa using hkeep
        | none =>
          simp only
          cases env.chtimesFails
          · simp only [Bool.false_eq_true, if_false]
            rw [readFile_osChtimes_isSome]
            exact hkeep
          · simpa using hkeep

/-- C9. `DownloadTo` fails exactly when the ID is empty, or the URL is empty, or the fetch
with retries fails, or the atomic write of the fetched content fails; with an empty ID or
URL it fails with no request made, no write attempted and the file system untouched. On
every failure the receiver is unchanged; on success `DownloadedPath` is `filepath.Join` of
the directory and the ID followed by `.gif`, `.jpg` or `.png`, which for a clean directory
other than the root and `.` and an ID without a separator is the directory, a separator,
the ID and the extension; no other field changes. Neither the outcome of `os.Chtimes` nor
the value of `Mtime` has any bearing on the error. -/
theorem C9_download_to (s : Sticker) (dir : Str) (fs : FS) (env : DownloadEnv) :
    ((DownloadTo s dir fs env).err ≠ none ↔
      (s.ID = [] ∨ s.URL = [] ∨
        (∀ c, (httpGetWithRetries env.responses 3).result ≠ Except.ok c) ∨
        ∃ c, (httpGetWithRetries env.responses 3).result = Except.ok c ∧
          (atomicWriteFile fs (filepathJoin dir (s.ID ++ extensionOf (env.detect c))) c 0o644
            env.write).err ≠ none)) ∧
    ((s.ID = [] ∨ s.URL = []) →
      (DownloadTo s dir fs env).err ≠ none ∧ (DownloadTo s dir fs env).fetches = 0 ∧
      (DownloadTo s dir fs env).wrote = false ∧ (DownloadTo s dir fs env).fs = fs) ∧
    ((DownloadTo s dir fs env).err ≠ none → (DownloadTo s dir fs env).sticker = s) ∧
    ((DownloadTo s dir fs env).err = none →
      ∃ ext ∈ [".gif".toList, ".jpg".toList, ".png".toList],
        (DownloadTo s dir fs env).sticker =
          { s with DownloadedPath := filepathJoin dir (s.ID ++ ext) } ∧
        (filepathClean dir = dir → dir ≠ ['/'] → dir ≠ ['.'] → '/' ∉ s.ID →
          (DownloadTo s dir fs env).sticker.DownloadedPath = dir ++ '/' :: (s.ID ++ ext))) ∧
    (∀ (b : Bool) (t : Time),
      (DownloadTo { s with Mtime := t } dir fs { env with chtimesFails := b }).err =
        (DownloadTo s dir fs env).err) := by
  have hmain :
      ((DownloadTo s dir fs env).err ≠ none ↔
        (s.ID = [] ∨ s.URL = [] ∨
          (∀ c, (httpGetWithRetries env.responses 3).result ≠ Except.ok c) ∨
          ∃ c, (httpGetWithRetries env.responses 3).result = Except.ok c ∧
            (atomicWriteFile fs (filepathJoin dir (s.ID ++ extensionOf (env.detect c))) c
              0o644 env.write).err ≠ none)) ∧
      ((s.ID = [] ∨ s.URL = []) →
        (DownloadTo s dir fs env).err ≠ none ∧ (DownloadTo s dir fs env).fetches = 0 ∧
        (DownloadTo s dir fs env).wrote = false ∧ (DownloadTo s dir fs env).fs = fs) ∧
      ((DownloadTo s dir fs env).err ≠ none → (DownloadTo s dir fs env).sticker = s) ∧
      ((DownloadTo s dir fs env).err = none →
        ∃ ext ∈ [".gif".toList, ".jpg".toList, ".png".toList],
          (DownloadTo s dir fs env).sticker =
            { s with DownloadedPath := filepathJoin dir (s.ID ++ ext) }) ∧
      (∀ (b : Bool) (t : Time),
        (DownloadTo { s with Mtime := t } dir fs { env with chtimesFails := b }).err =
          (DownloadTo s dir fs env).err) := by
    unfold DownloadTo
    by_cases hid : s.ID = []
    · simp [hid]
    · by_cases hurl : s.URL = []
      · simp [hid, hurl]
      · simp only [hid, hurl, if_false, false_or]
        cases hres : (httpGetWithRetries env.responses 3).result with
        | error errs => simp
        | ok content =>
          simp only [reduceCtorEq, not_false_eq_true, implies_true, Except.ok.injEq, ne_eq,
            exists_eq_left', forall_eq', not_true_eq_false, false_or, IsEmpty.forall_iff, true_and]
          cases hw : (atomicWriteFile fs
              (filepathJoin dir (s.ID ++ extensionOf (env.detect content))) content 0o644
              env.write).err with
          | some e => simp
          | none =>
            simp only [not_true_eq_false, false_iff, not_false_eq_true, IsEmpty.forall_iff,
              forall_true_left, true_and, and_true]
            exact ⟨⟨extensionOf _, extensionOf_mem _, rfl⟩, fun _ _ => trivial⟩
  obtain ⟨h1, h2, h3, h4, h5⟩ := hmain
  refine ⟨h1, h2, h3, ?_, h5⟩
  intro hok
  obtain ⟨ext, hext, hst⟩ := h4 hok
  refine ⟨ext, hext, hst, ?_⟩
  intro hclean hroot hdot hsep
  have hid : s.ID ≠ [] := fun hid => (h2 (Or.inl hid)).1 hok
  rw [hst]
  exact filepathJoin_clean dir (s.ID ++ ext) (filename_plain_of s.ID ext hid hsep hext)
    hclean hroot hdot

/-! ## Extraction over all archives -/

theorem extractLoop_spec (extract : Str → Except ArchiveError (List Sticker))
    (favArchives : List Str) (stickers : List Sticker) (failures : Nat) :
    (extractLoop extract favArchives (stickers, failures)).1 =
      stickers ++ stickersOfSucceeded extract favArchives ∧
    (failures < (extractLoop extract favArchives (stickers, failures)).2 ↔
      someArchiveFailed extract favArchives = true) ∧
    failures ≤ (extractLoop extract favArchives (stickers, failures)).2 := by
  induction favArchives generalizing stickers failures with
  | nil => simp [extractLoop, stickersOfSucceeded, someArchiveFailed]
  | cons a rest ih =>
    unfold extractLoop
    cases h : extract a with
    | error e =>
      obtain ⟨h1, h2, h3⟩ := ih stickers (failures + 1)
      dsimp only
      refine ⟨?_, ?_, by omega⟩
      · simp only [h1]
        simp [stickersOfSucceeded, h]
      · simp only [someArchiveFailed, List.any_cons, h, Bool.true_or, iff_true]
        omega
    | ok l =>
      obtain ⟨h1, h2, h3⟩ := ih (stickers ++ l) failures
      dsimp only
      refine ⟨?_, ?_, h3⟩
      · simp only [h1]
        simp [stickersOfSucceeded, h]
      · simp only [h2]
        simp [someArchiveFailed, h]

/-- What `ExtractStickerMetadata` returns for a non-empty list of archives: the stickers of
the archives that were extracted, in archive order, and an error exactly when an archive
failed or `os.UserHomeDir` had failed. -/
theorem ExtractStickerMetadataWith_spec (homeDirFails : Bool) (favArchives : List Str)
    (extract : Str → Except ArchiveError (List Sticker)) (hne : favArchives ≠ []) :
    (ExtractStickerMetadataWith homeDirFails favArchives extract).1 =
      stickersOfSucceeded extract favArchives ∧
    ((ExtractStickerMetadataWith homeDirFails favArchives extract).2 ≠ none ↔
      (someArchiveFailed extract favArchives = true ∨ homeDirFails = true)) := by
  obtain ⟨h1, h2, -⟩ := extractLoop_spec extract favArchives [] 0
  have hlen : ¬ favArchives.length = 0 := fun h => hne (List.length_eq_zero.1 h)
  unfold ExtractStickerMetadataWith
  simp only [hlen, if_false]
  by_cases hf : (extractLoop extract favArchives ([], 0)).2 > 0
  · simp only [hf, if_true]
    exact ⟨by simpa using h1, by simp [h2.1 hf]⟩
  · have hnf : ¬ someArchiveFailed extract favArchives = true := fun h => hf (h2.2 h)
    simp only [hf, if_false]
    refine ⟨by simpa using h1, ?_⟩
    cases homeDirFails <;> simp [hnf]

/-- C7, at the failing input: `os.UserHomeDir` has failed and the glob matches one archive,
which is extracted without error to one sticker. No archive failed and the sticker is
returned, yet the error returned is not nil. -/
theorem C7_home_dir_error_returned :
    ExtractStickerMetadataFromFavArchive (fun _ => none) "h/Stickers/fav.archive".toList
      (decodeAB "h/Stickers/fav.archive".toList) = Except.ok [stickerAB] ∧
    someArchiveFailed
      (fun a => ExtractStickerMetadataFromFavArchive (fun _ => none) a (decodeAB a))
      ["h/Stickers/fav.archive".toList] = false ∧
    ExtractStickerMetadata true ["h/Stickers/fav.archive".toList] (fun _ => none) decodeAB =
      ([stickerAB], some ExtractError.homeDir) := by
  refine ⟨?_, ?_, ?_⟩
  · rfl
  · decide
  · decide

/-! ## The download loop -/

theorem afterDownload_calls (datadir : Str) (envs : Nat → DownloadEnv) (s : Sticker)
    (st : LoopState) :
    (afterDownload datadir envs s st).calls =
      st.calls ++ [(s, DownloadTo s datadir st.fs (envs st.calls.length))] := by
  unfold afterDownload
  cases h : (DownloadTo s datadir st.fs (envs st.calls.length)).err <;> simp [h]

theorem downloadLoop_invariant (datadir : Str) (existingIDs : List Str)
    (envs : Nat → DownloadEnv) (P : LoopState → Prop) (l : List Sticker)
    (hstep : ∀ s ∈ l, s.ID ∉ existingIDs → ∀ st, P st → P (afterDownload datadir envs s st))
    (st : LoopState) (h0 : P st) : P (downloadLoop datadir existingIDs envs l st) := by
  induction l generalizing st with
  | nil => exact h0
  | cons s rest ih =>
    unfold downloadLoop
    have hrest : ∀ s' ∈ rest, s'.ID ∉ existingIDs →
        ∀ st, P st → P (afterDownload datadir envs s' st) :=
      fun s' hs' => hstep s' (List.mem_cons_of_mem _ hs')
    split_ifs with h
    · exact ih hrest st h0
    · exact ih hrest _ (hstep s (List.mem_cons_self _ _) h st h0)

theorem downloadLoop_attempted (datadir : Str) (existingIDs : List Str)
    (envs : Nat → DownloadEnv) (l : List Sticker) (st : LoopState) :
    (downloadLoop datadir existingIDs envs l st).calls.map (fun c => c.1) =
      st.calls.map (fun c => c.1) ++ l.filter (fun s => decide (s.ID ∉ existingIDs)) := by
  induction l generalizing st with
  | nil => simp [downloadLoop]
  | cons s rest ih =>
    unfold downloadLoop
    split_ifs with h
    · rw [ih, List.filter_cons_of_neg (by simpa using h)]
    · rw [ih, afterDownload_calls, List.filter_cons_of_pos (by simpa using h)]
      simp

theorem afterDownload_accounted (datadir : Str) (envs : Nat → DownloadEnv) (s : Sticker)
    (st : LoopState) (h : Accounted st) : Accounted (afterDownload datadir envs s st) := by
  obtain ⟨h1, h2⟩ := h
  unfold afterDownload Accounted
  cases hr : (DownloadTo s datadir st.fs (envs st.calls.length)).err with
  | none => simp [hr, h1, h2, List.filter_append]
  | some e => simp [hr, h1, h2, List.filter_append]

theorem downloadLoop_accounted (datadir : Str) (existingIDs : List Str)
    (envs : Nat → DownloadEnv) (l : List Sticker) (fs : FS) :
    Accounted (downloadLoop datadir existingIDs envs l
      { fs := fs, newDownloads := [], failures := 0, calls := [] }) :=
  downloadLoop_invariant datadir existingIDs envs Accounted l
    (fun s _ _ st h => afterDownload_accounted datadir envs s st h) _ (by simp [Accounted])

theorem downloadLoop_genuine (datadir : Str) (existingIDs : List Str)
    (envs : Nat → DownloadEnv) (l : List Sticker) (fs : FS) :
    CallsGenuine datadir (downloadLoop datadir existingIDs envs l
      { fs := fs, newDownloads := [], failures := 0, calls := [] }) := by
  refine downloadLoop_invariant datadir existingIDs envs (CallsGenuine datadir) l ?_ _
    (fun c hc => absurd hc (List.not_mem_nil c))
  intro s _ _ st h c hc
  rw [afterDownload_calls] at hc
  rcases List.mem_append.1 hc with hc | hc
  · exact h c hc
  · simp only [List.mem_singleton] at hc
    subst hc
    exact ⟨_, _, rfl⟩

/-! ## The main program: order and multiplicity of the downloads -/

theorem compareMtime_le_iff (a b : Sticker) : compareMtime a b ≤ 0 ↔ a.Mtime ≤ b.Mtime := by
  unfold compareMtime Time.Compare
  split_ifs with h1 h2
  · exact ⟨fun _ => le_of_lt h1, fun _ => by decide⟩
  · exact ⟨fun h => absurd h (by decide), fun h => absurd h (not_le.2 h2)⟩
  · exact ⟨fun _ => not_lt.1 h2, fun _ => le_refl _⟩

theorem insertionSortFunc_sortsAscending : SortsAscending insertionSortFunc := by
  intro l
  haveI : IsTotal Sticker (fun a b => compareMtime a b ≤ 0) :=
    ⟨fun a b => by
      rw [compareMtime_le_iff, compareMtime_le_iff]
      exact le_total _ _⟩
  haveI : IsTrans Sticker (fun a b => compareMtime a b ≤ 0) :=
    ⟨fun a b c hab hbc => by
      rw [compareMtime_le_iff] at *
      exact le_trans hab hbc⟩
  exact ⟨List.perm_insertionSort _ l, List.sorted_insertionSort _ l⟩

theorem mainFrom_attempted
    (sortFunc : (Sticker → Sticker → Int) → List Sticker → List Sticker)
    (datadir : Str) (existingIDs : List Str) (fs : FS)
    (extracted : List Sticker × Option ExtractError) (envs : Nat → DownloadEnv) :
    attempted (mainFrom sortFunc datadir existingIDs fs extracted envs) =
      (sortFunc compareMtime extracted.1).filter (fun s => decide (s.ID ∉ existingIDs)) := by
  unfold attempted mainFrom
  simp only [downloadLoop_attempted]
  simp

/-- C5. For every extracted list and every Existing-ID Set, when `slices.SortFunc` sorts as
it promises, the stickers on which `main` calls `DownloadTo` are, as a multiset, exactly
the extracted stickers whose id is not in the set, and they are attempted in non-decreasing
`Mtime` order; in particular no sticker with an unset `Mtime` is attempted after a sticker
with a later one. -/
theorem C5_ascending_mtime_order
    (sortFunc : (Sticker → Sticker → Int) → List Sticker → List Sticker)
    (hsort : SortsAscending sortFunc)
    (datadir : Str) (existingIDs : List Str) (fs : FS)
    (extracted : List Sticker × Option ExtractError) (envs : Nat → DownloadEnv) :
    (attempted (mainFrom sortFunc datadir existingIDs fs extracted envs)).Perm
      (extracted.1.filter (fun s => decide (s.ID ∉ existingIDs))) ∧
    (attempted (mainFrom sortFunc datadir existingIDs fs extracted envs)).Pairwise
      (fun a b => a.Mtime ≤ b.Mtime) ∧
    (attempted (mainFrom sortFunc datadir existingIDs fs extracted envs)).Pairwise
      (fun a b => b.Mtime = Time.zero → a.Mtime ≤ Time.zero) := by
  rw [mainFrom_attempted]
  obtain ⟨hperm, hsorted⟩ := hsort extracted.1
  have hpw : ((sortFunc compareMtime extracted.1).filter
      (fun s => decide (s.ID ∉ existingIDs))).Pairwise (fun a b => a.Mtime ≤ b.Mtime) := by
    refine List.Pairwise.filter _ (hsorted.imp ?_)
    intro a b hab
    exact (compareMtime_le_iff a b).1 hab
  refine ⟨hperm.filter _, hpw, hpw.imp ?_⟩
  intro a b hab hb
  rw [← hb]
  exact hab

/-- C5 at a concrete run: insertion sort, three stickers, none downloaded before. -/
theorem C5_ascending_mtime_order_witness :
    SortsAscending insertionSortFunc ∧
    (attempted (mainFrom insertionSortFunc "data".toList [] []
      ([stickerT1, stickerT2, stickerT3], none) (fun _ => envOK))).Perm
      ([stickerT1, stickerT2, stickerT3].filter (fun s => decide (s.ID ∉ ([] : List Str)))) ∧
    (attempted (mainFrom insertionSortFunc "data".toList [] []
      ([stickerT1, stickerT2, stickerT3], none) (fun _ => envOK))).Pairwise
      (fun a b => a.Mtime ≤ b.Mtime) :=
  ⟨insertionSortFunc_sortsAscending,
    (C5_ascending_mtime_order insertionSortFunc insertionSortFunc_sortsAscending
      "data".toList [] [] ([stickerT1, stickerT2, stickerT3], none) (fun _ => envOK)).1,
    (C5_ascending_mtime_order insertionSortFunc insertionSortFunc_sortsAscending
      "data".toList [] [] ([stickerT1, stickerT2, stickerT3], none) (fun _ => envOK)).2.1⟩

theorem nodup_ids_filter_length (l : List Sticker) (h : (l.map (fun s => s.ID)).Nodup)
    (id : Str) : (l.filter (fun s => decide (s.ID = id))).length ≤ 1 := by
  induction l with
  | nil => simp
  | cons s rest ih =>
    rw [List.map_cons, List.nodup_cons] at h
    by_cases hs : s.ID = id
    · rw [List.filter_cons_of_pos (by simpa using hs)]
      have hnil : rest.filter (fun s => decide (s.ID = id)) = [] := by
        rw [List.filter_eq_nil_iff]
        intro x hx hxid
        exact h.1 (List.mem_map.2 ⟨x, hx, by rw [hs]; simpa using hxid⟩)
      rw [hnil]
      simp
    · rw [List.filter_cons_of_neg (by simpa using hs)]
      exact ih h.2

/-- C4, refuted as stated: the same sticker listed twice, with an empty Existing-ID Set,
is handed to `DownloadTo` twice in one run. -/
theorem C4_counterexample :
    ((attempted (mainFrom insertionSortFunc "data".toList [] []
      ([stickerAB, stickerAB], none) (fun _ => envOK))).filter
        (fun s => decide (s.ID = "ab".toList))).length = 2 := by
  rw [mainFrom_attempted]
  decide

theorem filter_id_length (l : List Sticker) (existingIDs : List Str) (id : Str) :
    ((l.filter (fun s => decide (s.ID ∉ existingIDs))).filter
      (fun s => decide (s.ID = id))).length =
      if id ∈ existingIDs then 0 else (l.filter (fun s => decide (s.ID = id))).length := by
  induction l with
  | nil => simp
  | cons s rest ih =>
    by_cases hex : s.ID ∈ existingIDs
    · rw [List.filter_cons_of_neg (by simpa using hex), ih]
      by_cases hid : s.ID = id
      · rw [← hid, if_pos hex, if_pos hex]
      · rw [List.filter_cons_of_neg (by simpa using hid)]
    · rw [List.filter_cons_of_pos (by simpa using hex)]
      by_cases hid : s.ID = id
      · have hnot : id ∉ existingIDs := hid ▸ hex
        rw [List.filter_cons_of_pos (by simpa using hid),
          List.filter_cons_of_pos (by simpa using hid), List.length_cons, ih, if_neg hnot,
          if_neg hnot, List.length_cons]
      · rw [List.filter_cons_of_neg (by simpa using hid),
          List.filter_cons_of_neg (by simpa using hid), ih]

/-- C4, amended. For every aggregated sticker list and every Existing-ID Set, when
`slices.SortFunc` sorts as it promises, the loop of `main` calls `DownloadTo` within a
single run never for an id in the Existing-ID Set and, for an id not in it, exactly once
for each occurrence of the id in the list; hence at most once for each id that occurs at
most once in the list, and at most once for every id when no id is listed twice. -/
theorem C4_once_per_occurrence
    (sortFunc : (Sticker → Sticker → Int) → List Sticker → List Sticker)
    (hsort : SortsAscending sortFunc)
    (datadir : Str) (existingIDs : List Str) (fs : FS)
    (extracted : List Sticker × Option ExtractError) (envs : Nat → DownloadEnv) (id : Str) :
    ((attempted (mainFrom sortFunc datadir existingIDs fs extracted envs)).filter
      (fun s => decide (s.ID = id))).length =
      (if id ∈ existingIDs then 0
       else (extracted.1.filter (fun s => decide (s.ID = id))).length) ∧
    ((extracted.1.filter (fun s => decide (s.ID = id))).length ≤ 1 →
      ((attempted (mainFrom sortFunc datadir existingIDs fs extracted envs)).filter
        (fun s => decide (s.ID = id))).length ≤ 1) ∧
    ((extracted.1.map (fun s => s.ID)).Nodup →
      ((attempted (mainFrom sortFunc datadir existingIDs fs extracted envs)).filter
        (fun s => decide (s.ID = id))).length ≤ 1) := by
  obtain ⟨hperm, -⟩ := hsort extracted.1
  have hcount : ((attempted (mainFrom sortFunc datadir existingIDs fs extracted envs)).filter
      (fun s => decide (s.ID = id))).length =
      (if id ∈ existingIDs then 0
       else (extracted.1.filter (fun s => decide (s.ID = id))).length) := by
    rw [mainFrom_attempted, filter_id_length,
      (hperm.filter (fun s => decide (s.ID = id))).length_eq]
  have hle : (extracted.1.filter (fun s => decide (s.ID = id))).length ≤ 1 →
      ((attempted (mainFrom sortFunc datadir existingIDs fs extracted envs)).filter
        (fun s => decide (s.ID = id))).length ≤ 1 := by
    intro h
    rw [hcount]
    split_ifs
    · exact Nat.zero_le 1
    · exact h
  exact ⟨hcount, hle, fun hnodup => hle (nodup_ids_filter_length _ hnodup id)⟩

/-- The amended C4 at a concrete run: one sticker listed twice and another once. -/
theorem C4_once_per_occurrence_witness :
    SortsAscending insertionSortFunc ∧
    ((attempted (mainFrom insertionSortFunc "data".toList [] []
      ([stickerAB, stickerAB, stickerT1], none) (fun _ => envOK))).filter
      (fun s => decide (s.ID = "ab".toList))).length =
      (if "ab".toList ∈ ([] : List Str) then 0
       else (([stickerAB, stickerAB, stickerT1], (none : Option ExtractError)).1.filter
        (fun s => decide (s.ID = "ab".toList))).length) :=
  ⟨insertionSortFunc_sortsAscending,
    (C4_once_per_occurrence insertionSortFunc insertionSortFunc_sortsAscending "data".toList
      [] [] ([stickerAB, stickerAB, stickerT1], none) (fun _ => envOK) "ab".toList).1⟩

/-- C10, refuted as stated: with `T3 > T1 > T2` the stickers are attempted in the order
`T2, T1, T3`, not `T1, T2, T3`. -/
theorem C10_counterexample :
    stickerT3.Mtime > stickerT1.Mtime ∧ stickerT1.Mtime > stickerT2.Mtime ∧
    attempted (mainFrom insertionSortFunc "data".toList [] []
      ([stickerT1, stickerT2, stickerT3], none) (fun _ => envOK)) =
        [stickerT2, stickerT1, stickerT3] ∧
    attempted (mainFrom insertionSortFunc "data".toList [] []
      ([stickerT1, stickerT2, stickerT3], none) (fun _ => envOK)) ≠
        [stickerT1, stickerT2, stickerT3] := by
  rw [mainFrom_attempted]
  decide

theorem sorted_three (l : List Sticker) (s1 s2 s3 : Sticker)
    (h31 : s3.Mtime > s1.Mtime) (h12 : s1.Mtime > s2.Mtime)
    (hperm : l.Perm [s1, s2, s3]) (hsorted : l.Pairwise (fun a b => a.Mtime ≤ b.Mtime)) :
    l = [s2, s1, s3] := by
  have hlen : l.length = 3 := by simpa using hperm.length_eq
  have hmem : ∀ x ∈ l, x = s1 ∨ x = s2 ∨ x = s3 := by
    intro x hx
    simpa using hperm.mem_iff.1 hx
  have hm : (l.map (fun s => s.Mtime)).Perm [s1.Mtime, s2.Mtime, s3.Mtime] := by
    simpa using hperm.map (fun s => s.Mtime)
  have hs : (l.map (fun s => s.Mtime)).Sorted (· ≤ ·) := by
    unfold List.Sorted
    rw [List.pairwise_map]
    exact hsorted
  have htarget : ([s2.Mtime, s1.Mtime, s3.Mtime] : List Int).Sorted (· ≤ ·) := by
    simp only [List.Sorted, List.pairwise_cons, List.mem_cons, List.mem_singleton,
      forall_eq_or_imp, forall_eq, List.not_mem_nil, IsEmpty.forall_iff, implies_true,
      List.Pairwise.nil, and_true]
    exact ⟨⟨le_of_lt h12, le_of_lt (lt_trans h12 h31)⟩, le_of_lt h31⟩
  have hp2 : (l.map (fun s => s.Mtime)).Perm [s2.Mtime, s1.Mtime, s3.Mtime] :=
    hm.trans (List.Perm.swap _ _ _)
  have heq := List.eq_of_perm_of_sorted hp2 hs htarget
  match l, hlen, hmem, heq with
  | [x, y, z], _, hmem, heq =>
    simp only [List.map_cons, List.map_nil, List.cons.injEq, and_true] at heq
    obtain ⟨hx, hy, hz⟩ := heq
    have hne12 : s1.Mtime ≠ s2.Mtime := ne_of_gt h12
    have hne13 : s1.Mtime ≠ s3.Mtime := ne_of_lt h31
    have hne23 : s2.Mtime ≠ s3.Mtime := ne_of_lt (lt_trans h12 h31)
    have ex : x = s2 := by
      rcases hmem x (by simp) with h | h | h
      · rw [h] at hx; exact absurd hx hne12
      · exact h
      · rw [h] at hx; exact absurd hx.symm hne23
    have ey : y = s1 := by
      rcases hmem y (by simp) with h | h | h
      · exact h
      · rw [h] at hy; exact absurd hy.symm hne12
      · rw [h] at hy; exact absurd hy.symm hne13
    have ez : z = s3 := by
      rcases hmem z (by simp) with h | h | h
      · rw [h] at hz; exact absurd hz hne13
      · rw [h] at hz; exact absurd hz hne23
      · exact h
    rw [ex, ey, ez]

/-- C10, amended. Given three Stickers, none already downloaded, with mtimes `T1`, `T2`,
`T3` such that `T3 > T1 > T2`, listed in any order, the download stage of `main` processes
them in the order `T2, T1, T3`, when `slices.SortFunc` sorts as it promises. -/
theorem C10_processing_order
    (sortFunc : (Sticker → Sticker → Int) → List Sticker → List Sticker)
    (hsort : SortsAscending sortFunc)
    (datadir : Str) (existingIDs : List Str) (fs : FS) (envs : Nat → DownloadEnv)
    (err : Option ExtractError) (l : List Sticker) (s1 s2 s3 : Sticker)
    (hl : l.Perm [s1, s2, s3])
    (h31 : s3.Mtime > s1.Mtime) (h12 : s1.Mtime > s2.Mtime)
    (hnew : s1.ID ∉ existingIDs ∧ s2.ID ∉ existingIDs ∧ s3.ID ∉ existingIDs) :
    attempted (mainFrom sortFunc datadir existingIDs fs (l, err) envs) = [s2, s1, s3] := by
  rw [mainFrom_attempted]
  obtain ⟨hperm, hsorted⟩ := hsort l
  have hpw : (sortFunc compareMtime l).Pairwise (fun a b => a.Mtime ≤ b.Mtime) :=
    hsorted.imp (fun {a b} hab => (compareMtime_le_iff a b).1 hab)
  have h := sorted_three (sortFunc compareMtime l) s1 s2 s3 h31 h12 (hperm.trans hl) hpw
  show List.filter _ (sortFunc compareMtime l) = _
  rw [h]
  simp [hnew.1, hnew.2.1, hnew.2.2]

/-- The amended C10 at a concrete run. -/
theorem C10_processing_order_witness :
    SortsAscending insertionSortFunc ∧
    [stickerT3, stickerT1, stickerT2].Perm [stickerT1, stickerT2, stickerT3] ∧
    stickerT3.Mtime > stickerT1.Mtime ∧ stickerT1.Mtime > stickerT2.Mtime ∧
    attempted (mainFrom insertionSortFunc "data".toList [] []
      ([stickerT3, stickerT1, stickerT2], none) (fun _ => envOK)) =
        [stickerT2, stickerT1, stickerT3] :=
  ⟨insertionSortFunc_sortsAscending, by decide, by decide, by decide,
    C10_processing_order insertionSortFunc insertionSortFunc_sortsAscending "data".toList []
      [] (fun _ => envOK) none [stickerT3, stickerT1, stickerT2] stickerT1 stickerT2 stickerT3
      (by decide) (by decide) (by decide) (by decide)⟩

/-! ## The main program: exit status and output -/

/-- C6. For every extraction result and every behaviour of the downloads, `main` ends with
exit status 1 exactly when `ExtractStickerMetadata` returned an error or some call of
`DownloadTo` failed, and with status 0 otherwise. Whatever the status, `newDownloads`
holds, in call order, exactly the receivers of the calls that succeeded, each with its
`DownloadedPath` set by the call, and their paths are what is printed. In a run where the
second of three downloads fails, the two other paths are printed and the status is 1. -/
theorem C6_exit_status
    (sortFunc : (Sticker → Sticker → Int) → List Sticker → List Sticker)
    (datadir : Str) (existingIDs : List Str) (fs : FS)
    (extracted : List Sticker × Option ExtractError) (envs : Nat → DownloadEnv) :
    ((mainFrom sortFunc datadir existingIDs fs extracted envs).exitCode = 1 ↔
      (extracted.2 ≠ none ∨
        ∃ c ∈ (mainFrom sortFunc datadir existingIDs fs extracted envs).calls,
          c.2.err ≠ none)) ∧
    ((mainFrom sortFunc datadir existingIDs fs extracted envs).exitCode = 0 ↔
      ¬ (extracted.2 ≠ none ∨
        ∃ c ∈ (mainFrom sortFunc datadir existingIDs fs extracted envs).calls,
          c.2.err ≠ none)) ∧
    (mainFrom sortFunc datadir existingIDs fs extracted envs).newDownloads =
      ((mainFrom sortFunc datadir existingIDs fs extracted envs).calls.filter
        (fun c => c.2.err.isNone)).map (fun c => c.2.sticker) ∧
    (∀ c ∈ (mainFrom sortFunc datadir existingIDs fs extracted envs).calls, c.2.err = none →
      ∃ ext ∈ [".gif".toList, ".jpg".toList, ".png".toList],
        c.2.sticker = { c.1 with DownloadedPath := filepathJoin datadir (c.1.ID ++ ext) }) ∧
    (mainFrom sortFunc datadir existingIDs fs extracted envs).printed =
      (if (mainFrom sortFunc datadir existingIDs fs extracted envs).newDownloads = [] then
        Printed.noNewStickers
      else
        Printed.downloaded
          (mainFrom sortFunc datadir existingIDs fs extracted envs).newDownloads.length
          ((mainFrom sortFunc datadir existingIDs fs extracted envs).newDownloads.map
            (fun s => s.DownloadedPath))) ∧
    ((mainFrom insertionSortFunc "data".toList [] []
        ([stickerT1, stickerT2, stickerT3], none) envsSecondFails).exitCode = 1 ∧
      (mainFrom insertionSortFunc "data".toList [] []
        ([stickerT1, stickerT2, stickerT3], none) envsSecondFails).printed =
        Printed.downloaded 2 ["data/a2.png".toList, "data/a3.png".toList]) := by
  have hacc := downloadLoop_accounted datadir existingIDs envs
    (sortFunc compareMtime extracted.1) fs
  have hgen := downloadLoop_genuine datadir existingIDs envs
    (sortFunc compareMtime extracted.1) fs
  obtain ⟨hnew, hfail⟩ := hacc
  have hpos : 0 < (downloadLoop datadir existingIDs envs (sortFunc compareMtime extracted.1)
      { fs := fs, newDownloads := [], failures := 0, calls := [] }).failures ↔
      ∃ c ∈ (mainFrom sortFunc datadir existingIDs fs extracted envs).calls,
        c.2.err ≠ none := by
    rw [hfail, List.length_pos_iff_exists_mem]
    constructor
    · rintro ⟨c, hc⟩
      rw [List.mem_filter] at hc
      refine ⟨c, hc.1, ?_⟩
      intro h
      rw [h] at hc
      simp at hc
    · rintro ⟨c, hc, hne⟩
      refine ⟨c, List.mem_filter.2 ⟨hc, ?_⟩⟩
      cases h : c.2.err with
      | none => exact absurd h hne
      | some e => rfl
  have hexit : (mainFrom sortFunc datadir existingIDs fs extracted envs).exitCode =
      if (0 < (downloadLoop datadir existingIDs envs (sortFunc compareMtime extracted.1)
        { fs := fs, newDownloads := [], failures := 0, calls := [] }).failures ∨
        extracted.2 ≠ none) then 1 else 0 := by
    unfold mainFrom
    dsimp only
    by_cases hf : 0 < (downloadLoop datadir existingIDs envs
        (sortFunc compareMtime extracted.1)
        { fs := fs, newDownloads := [], failures := 0, calls := [] }).failures
    · simp [hf]
    · cases he : extracted.2 <;> simp [hf, he]
  refine ⟨?_, ?_, hnew, ?_, ?_, ?_⟩
  · rw [hexit, ← hpos]
    split_ifs with h
    · simp only [true_iff]; tauto
    · simp only [zero_ne_one, false_iff]; tauto
  · rw [hexit, ← hpos]
    split_ifs with h
    · simp only [one_ne_zero, false_iff, not_not]; tauto
    · simp only [true_iff]; tauto
  · intro c hc herr
    obtain ⟨fs', env', hcall⟩ := hgen c hc
    rw [hcall] at herr ⊢
    obtain ⟨ext, hext, hst, -⟩ := DownloadTo_success c.1 datadir fs' env' herr
    exact ⟨ext, hext, hst⟩
  · unfold mainFrom
    dsimp only
    by_cases hn : (downloadLoop datadir existingIDs envs (sortFunc compareMtime extracted.1)
        { fs := fs, newDownloads := [], failures := 0, calls := [] }).newDownloads = []
    · simp [hn]
    · have : 0 < (downloadLoop datadir existingIDs envs (sortFunc compareMtime extracted.1)
          { fs := fs, newDownloads := [], failures := 0, calls := [] }).newDownloads.length :=
        List.length_pos.2 hn
      simp [hn, this]
  · constructor
    · rfl
    · rfl

/-! ## The Existing-ID Set and the second run -/

theorem filenamePatternTail_rmatch_iff (x : Str) :
    filenamePatternTail.rmatch x = true ↔
      ∃ u, x = '.' :: u ∧ u ≠ [] ∧
        ∀ c ∈ u, c ∈ "0123456789abcdefghijklmnopqrstuvwxyz".toList := by
  unfold filenamePatternTail alnumClass
  rw [mul_rmatch_iff]
  constructor
  · rintro ⟨t, u, rfl, ht, hu⟩
    rw [char_rmatch_iff] at ht
    rw [oneOrMore_charClass_rmatch_iff, alnumChars_eq] at hu
    subst ht
    exact ⟨u, rfl, hu⟩
  · rintro ⟨u, rfl, hu⟩
    refine ⟨['.'], u, rfl, (char_rmatch_iff _ _).2 rfl, ?_⟩
    rw [oneOrMore_charClass_rmatch_iff, alnumChars_eq]
    exact hu

theorem filenamePatternGroup_rmatch_iff (x : Str) :
    filenamePatternGroup.rmatch x = true ↔ isLowerHex x = true :=
  idpatternMatchString_iff x

theorem isLowerHex_chars (x : Str) (h : isLowerHex x = true) :
    x ≠ [] ∧ ∀ c ∈ x, c ∈ "0123456789abcdef".toList := by
  unfold isLowerHex at h
  rw [Bool.and_eq_true, List.all_eq_true] at h
  refine ⟨?_, ?_⟩
  · intro hx
    rw [hx] at h
    exact absurd h.1 (by decide)
  · intro c hc
    have := h.2 c hc
    simpa using this

theorem split_at_first (c : Char) (a a' b b' : Str) (ha : c ∉ a) (ha' : c ∉ a')
    (h : a ++ c :: b = a' ++ c :: b') : a = a' := by
  induction a generalizing a' with
  | nil =>
    cases a' with
    | nil => rfl
    | cons x l =>
      simp only [List.nil_append, List.cons_append, List.cons.injEq] at h
      exact absurd (h.1 ▸ List.mem_cons_self _ _) ha'
  | cons y l ih =>
    cases a' with
    | nil =>
      simp only [List.nil_append, List.cons_append, List.cons.injEq] at h
      exact absurd (h.1 ▸ List.mem_cons_self _ _) ha
    | cons x l' =>
      simp only [List.cons_append, List.cons.injEq] at h
      rw [h.1, ih l' (fun hm => ha (List.mem_cons_of_mem _ hm))
        (fun hm => ha' (List.mem_cons_of_mem _ hm)) h.2]

theorem findSome_of_unique {α β : Type} (f : α → Option β) (l : List α) (v : β)
    (hex : ∃ x ∈ l, f x = some v) (huniq : ∀ x ∈ l, ∀ w, f x = some w → w = v) :
    l.findSome? f = some v := by
  induction l with
  | nil =>
    obtain ⟨x, hx, -⟩ := hex
    cases hx
  | cons a l ih =>
    rw [List.findSome?_cons]
    cases ha : f a with
    | some w => rw [huniq a (List.mem_cons_self _ _) w ha]
    | none =>
      refine ih ?_ (fun x hx => huniq x (List.mem_cons_of_mem _ hx))
      obtain ⟨x, hx, hfx⟩ := hex
      rcases List.mem_cons.1 hx with rfl | hx'
      · rw [ha] at hfx; cases hfx
      · exact ⟨x, hx', hfx⟩

theorem extension_shape (ext : Str)
    (hext : ext ∈ [".gif".toList, ".jpg".toList, ".png".toList]) :
    ∃ e, ext = '.' :: e ∧ e ≠ [] ∧ '/' ∉ e ∧
      ∀ c ∈ e, c ∈ "0123456789abcdefghijklmnopqrstuvwxyz".toList := by
  simp only [List.mem_cons, List.mem_singleton, List.not_mem_nil, or_false] at hext
  rcases hext with rfl | rfl | rfl
  · exact ⟨"gif".toList, rfl, by decide, by decide, by decide⟩
  · exact ⟨"jpg".toList, rfl, by decide, by decide, by decide⟩
  · exact ⟨"png".toList, rfl, by decide, by decide, by decide⟩

/-- The file name `DownloadTo` writes is matched by `filenamePattern`, with the id captured. -/
theorem filenamePattern_captures_id (id ext : Str) (hid : isLowerHex id = true)
    (hext : ext ∈ [".gif".toList, ".jpg".toList, ".png".toList]) :
    filenamePatternFindStringSubmatch (id ++ ext) = some id := by
  obtain ⟨e, rfl, hne, -, halnum⟩ := extension_shape ext hext
  obtain ⟨hidne, hidhex⟩ := isLowerHex_chars id hid
  have hdot : ∀ x : Str, isLowerHex x = true → '.' ∉ x := by
    intro x hx hmem
    have := (isLowerHex_chars x hx).2 '.' hmem
    revert this
    decide
  unfold filenamePatternFindStringSubmatch
  apply findSome_of_unique
  · refine ⟨id.length, ?_, ?_⟩
    · rw [List.mem_reverse, List.mem_range, List.length_append]
      omega
    · rw [List.take_left, List.drop_left,
        (filenamePatternGroup_rmatch_iff id).2 hid,
        (filenamePatternTail_rmatch_iff _).2 ⟨e, rfl, hne, halnum⟩]
      rfl
  · intro k _ w hw
    split_ifs at hw with hmatch
    rw [Bool.and_eq_true] at hmatch
    obtain ⟨hg, ht⟩ := hmatch
    rw [filenamePatternGroup_rmatch_iff] at hg
    rw [filenamePatternTail_rmatch_iff] at ht
    obtain ⟨u, hu, -, -⟩ := ht
    have hsplit : (id ++ '.' :: e).take k ++ '.' :: u = id ++ '.' :: e := by
      rw [← hu, List.take_append_drop]
    have := split_at_first '.' _ _ _ _ (hdot _ hg) (hdot _ hid) hsplit
    simp only [Option.some.injEq] at hw
    rw [← hw, this]

theorem readFile_isSome_mem (fs : FS) (path : Str) (h : (readFile fs path).isSome = true) :
    ∃ e ∈ fs, e.1 = path := by
  induction fs with
  | nil => cases h
  | cons a rest ih =>
    unfold readFile at h
    split_ifs at h with ha
    · exact ⟨a, List.mem_cons_self _ _, ha⟩
    · obtain ⟨e, he, hp⟩ := ih h
      exact ⟨e, List.mem_cons_of_mem _ he, hp⟩

theorem childName_join (dir name : Str) (hname : Plain name) :
    childName dir (filepathJoin dir name) = some name := by
  unfold childName
  simp only [filepathBase_filepathJoin dir name hname]
  rw [if_pos ⟨hname.2.1, hname.2.2.1, hname.2.2.2, trivial⟩]

theorem readDirNames_mem (fs : FS) (dir name : Str) (hname : Plain name)
    (h : (readFile fs (filepathJoin dir name)).isSome = true) :
    name ∈ readDirNames fs dir := by
  obtain ⟨e, he, hp⟩ := readFile_isSome_mem fs _ h
  unfold readDirNames
  rw [List.mem_filterMap]
  exact ⟨e, he, by rw [hp]; exact childName_join dir name hname⟩

/-- The file name `DownloadTo` writes for an id of the correlator is a plain element. -/
theorem filename_plain (id ext : Str) (hid : isLowerHex id = true)
    (hext : ext ∈ [".gif".toList, ".jpg".toList, ".png".toList]) : Plain (id ++ ext) := by
  obtain ⟨hidne, hidhex⟩ := isLowerHex_chars id hid
  refine filename_plain_of id ext hidne ?_ hext
  intro hmem
  have := hidhex '/' hmem
  revert this
  decide

theorem written_id_is_existing (fs : FS) (datadir id ext : Str) (hid : isLowerHex id = true)
    (hext : ext ∈ [".gif".toList, ".jpg".toList, ".png".toList])
    (h : (readFile fs (filepathJoin datadir (id ++ ext))).isSome = true) :
    id ∈ existingIDsOf (readDirNames fs datadir) := by
  unfold existingIDsOf
  rw [List.mem_filterMap]
  exact ⟨id ++ ext, readDirNames_mem fs datadir _ (filename_plain id ext hid hext) h,
    filenamePattern_captures_id id ext hid hext⟩

theorem afterDownload_persisted (datadir : Str) (envs : Nat → DownloadEnv) (s : Sticker)
    (hs : isLowerHex s.ID = true) (st : LoopState) (h : Persisted datadir st) :
    Persisted datadir (afterDownload datadir envs s st) := by
  have hold : ∀ s' ∈ st.newDownloads, isLowerHex s'.ID = true ∧
      ∃ ext ∈ [".gif".toList, ".jpg".toList, ".png".toList],
        (readFile (DownloadTo s datadir st.fs (envs st.calls.length)).fs
          (filepathJoin datadir (s'.ID ++ ext))).isSome = true := by
    intro s' hs'
    obtain ⟨h1, ext, hext, hfile⟩ := h s' hs'
    exact ⟨h1, ext, hext, DownloadTo_keeps_files _ _ _ _ _ hfile⟩
  unfold afterDownload Persisted
  dsimp only
  cases hr : (DownloadTo s datadir st.fs (envs st.calls.length)).err with
  | some e => exact hold
  | none =>
    dsimp only
    intro s' hs'
    rcases List.mem_append.1 hs' with hmem | hmem
    · exact hold s' hmem
    · obtain ⟨ext, hext, hst, hfile⟩ := DownloadTo_success _ _ _ _ hr
      have hs'eq : s' = (DownloadTo s datadir st.fs (envs st.calls.length)).sticker := by
        simpa using hmem
      have hid : s'.ID = s.ID := by rw [hs'eq, hst]
      rw [hid]
      exact ⟨hs, ext, hext, hfile⟩

/-- C3. Every file name `id+ext` that `DownloadTo` can write for an id of the correlator is
matched by the filename pattern of `main` with `id` as the captured group. Hence, for a
list of stickers with such ids, every id that a first run of `main` wrote successfully is
in the Existing-ID Set of a second run started on the directory the first run left, and
the second run, over the same sticker list, calls `DownloadTo` for none of these ids. -/
theorem C3_idempotent_dedup
    (sortFunc : (Sticker → Sticker → Int) → List Sticker → List Sticker)
    (hsort : SortsAscending sortFunc)
    (datadir : Str) (fs : FS) (extracted : List Sticker × Option ExtractError)
    (envs1 envs2 : Nat → DownloadEnv)
    (hvalid : ∀ s ∈ extracted.1, isLowerHex s.ID = true) :
    (∀ id ext, isLowerHex id = true →
      ext ∈ [".gif".toList, ".jpg".toList, ".png".toList] →
      filenamePatternFindStringSubmatch (id ++ ext) = some id) ∧
    (∀ s ∈ (main sortFunc datadir fs extracted envs1).newDownloads,
      s.ID ∈ existingIDsOf (readDirNames (main sortFunc datadir fs extracted envs1).fs
        datadir)) ∧
    (∀ s ∈ (main sortFunc datadir fs extracted envs1).newDownloads,
      ∀ c ∈ (main sortFunc datadir (main sortFunc datadir fs extracted envs1).fs extracted
        envs2).calls, c.1.ID ≠ s.ID) := by
  have hpers : Persisted datadir (downloadLoop datadir
      (existingIDsOf (readDirNames fs datadir)) envs1 (sortFunc compareMtime extracted.1)
      { fs := fs, newDownloads := [], failures := 0, calls := [] }) := by
    refine downloadLoop_invariant datadir _ envs1 (Persisted datadir) _ ?_ _
      (fun s hs => absurd hs (List.not_mem_nil s))
    intro s hs _ st hst
    exact afterDownload_persisted datadir envs1 s
      (hvalid s ((hsort extracted.1).1.mem_iff.1 hs)) st hst
  have hexisting : ∀ s ∈ (main sortFunc datadir fs extracted envs1).newDownloads,
      s.ID ∈ existingIDsOf (readDirNames (main sortFunc datadir fs extracted envs1).fs
        datadir) := by
    intro s hs
    obtain ⟨hid, ext, hext, hfile⟩ := hpers s hs
    exact written_id_is_existing _ datadir s.ID ext hid hext hfile
  refine ⟨filenamePattern_captures_id, hexisting, ?_⟩
  intro s hs c hc heq
  have hmem : c.1 ∈ attempted (main sortFunc datadir
      (main sortFunc datadir fs extracted envs1).fs extracted envs2) :=
    List.mem_map.2 ⟨c, hc, rfl⟩
  unfold main at hmem
  rw [mainFrom_attempted, List.mem_filter] at hmem
  have hnot : c.1.ID ∉ existingIDsOf (readDirNames
      (mainFrom sortFunc datadir (existingIDsOf (readDirNames fs datadir)) fs extracted
        envs1).fs datadir) := by
    simpa using hmem.2
  rw [heq] at hnot
  exact hnot (hexisting s hs)

/-- C3 at a concrete run: one sticker, downloaded by the first run. -/
theorem C3_idempotent_dedup_witness :
    SortsAscending insertionSortFunc ∧
    (∀ s ∈ ([stickerAB], (none : Option ExtractError)).1, isLowerHex s.ID = true) ∧
    (∀ s ∈ (main insertionSortFunc "data".toList [] ([stickerAB], none)
        (fun _ => envOK)).newDownloads,
      ∀ c ∈ (main insertionSortFunc "data".toList
        (main insertionSortFunc "data".toList [] ([stickerAB], none) (fun _ => envOK)).fs
        ([stickerAB], none) (fun _ => envOK)).calls, c.1.ID ≠ s.ID) :=
  ⟨insertionSortFunc_sortsAscending, by decide,
    (C3_idempotent_dedup insertionSortFunc insertionSortFunc_sortsAscending "data".toList []
      ([stickerAB], none) (fun _ => envOK) (fun _ => envOK) (by decide)).2.2⟩

end WechatSticker
